import Mathlib

/-!
Shallow embedding of the V4 workout-structure detection engine from
`src/app/adapters/strava.py` (helpers `_rolling_mean`, `_median`, `_mean`,
`_median_mad`, `_robust_z`, `_make_row`, `_cluster_efforts_by_duration`
and the orchestrator `build_intervals_structure_v4`).

Python floats are modelled as exact rationals, `None` as `Option.none`,
database access as an explicit description of the operations performed
(`dbDeleted`, `dbInserted`), and the `RuntimeError` on an empty point
stream as `Except.error`.
-/

namespace RunningCoach

attribute [local semireducible] Rat.ofScientific Rat.mul Rat.inv Rat.add Rat.sub

/-- A per-sample point as returned by `_fetch_stream_points`:
`(idx, time_s, distance_m, velocity_m_s, heartrate_bpm, grade)`. -/
structure StreamPoint where
  idx : Nat
  time_s : Option Int
  distance_m : Option Rat
  velocity_m_s : Option Rat
  heartrate_bpm : Option Rat
  grade : Option Rat
deriving DecidableEq, Repr

/-- Hysteresis state / per-sample label. -/
inductive Label where
  | NEUTRAL
  | EFFORT
deriving DecidableEq, Repr

/-- Structural lap types written to `laps_auto`. -/
inductive LapType where
  | WARMUP
  | EFFORT
  | RECUP
  | COOLDOWN
deriving DecidableEq, Repr

/-- A row of `laps_auto` as built by `_make_row`. -/
structure Row where
  activity_id : Int
  lap_index : Nat
  lap_type : LapType
  start_idx : Nat
  end_idx : Nat
  start_time_s : Option Int
  end_time_s : Option Int
  duration_s : Int
  distance_m : Option Rat
  pace_s_per_km : Option Rat
  avg_hr : Option Rat
  avg_grade : Option Rat
deriving DecidableEq, Repr

/-- A duration cluster as produced by `_cluster_efforts_by_duration`. -/
structure Cluster where
  median_s : Int
  count : Nat
  members : List Int
deriving DecidableEq, Repr

/-- The dictionary returned by `build_intervals_structure_v4`
(one constructor per return site). -/
inductive V4Result where
  | insufficient (effort_count : Nat) (note : String)
  | noEfforts (effort_count : Nat) (recup_count : Nat) (note : String)
  | success (effort_count : Nat) (recup_count : Nat)
      (warmup : Bool) (cooldown : Bool)
      (v_median : Rat) (v_mad : Rat)
      (clusters : List Cluster) (sets : List (Int × Nat))
deriving DecidableEq, Repr

/-- One detection run: which persistence operations were performed, and the
returned summary.  `dbDeleted` records whether the DELETE of the structural
rows was executed, `dbInserted` the rows passed to the INSERT. -/
structure V4Output where
  dbDeleted : Bool
  dbInserted : List Row
  result : V4Result
deriving DecidableEq, Repr

deriving instance DecidableEq for Except

/-- `_mean`. -/
def mean (values : List Rat) : Option Rat :=
  if values = [] then none else some (values.sum / values.length)

/-- `_median`: sorts ascending, middle element on odd length, average of the
two middle elements on even length. -/
def median (values : List Rat) : Option Rat :=
  let vals := List.insertionSort (fun a b => a ≤ b) values
  if vals = [] then none
  else
    let n := vals.length
    let mid := n / 2
    if n % 2 = 1 then some (vals.getD mid 0)
    else some ((vals.getD (mid - 1) 0 + vals.getD mid 0) / 2)

/-- `_median_mad`: median and median absolute deviation; `(0, 0)` on empty
input, and the Python `or 0.0` fallback on the MAD. -/
def median_mad (values : List Rat) : Rat × Rat :=
  match median values with
  | none => (0, 0)
  | some med => (med, (median (values.map (fun v => |v - med|))).getD 0)

/-- `_robust_z`. -/
def robust_z (v : Option Rat) (med mad : Rat) : Option Rat :=
  match v with
  | none => none
  | some x =>
    let scale := (1.4826 : Rat) * mad
    if scale ≤ (1e-9 : Rat) then some 0
    else some ((x - med) / scale)

/-- `_rolling_mean`: centred rolling mean, window clipped at the edges,
`none` when no valid value falls in the window. -/
def rolling_mean (values : List (Option Rat)) (window : Nat) : List (Option Rat) :=
  if window ≤ 1 then values
  else
    let n := values.length
    let half := window / 2
    (List.range n).map (fun i =>
      let s := i - half
      let e := min n (i + half + 1)
      let chunk := ((values.drop s).take (e - s)).filterMap id
      if chunk = [] then none
      else some (chunk.sum / chunk.length))

/-- One step of the hysteresis machine in `build_intervals_structure_v4`:
null forces `NEUTRAL`; from `NEUTRAL`, `z ≥ on` switches to `EFFORT`;
from `EFFORT`, `z ≤ off` switches back to `NEUTRAL`. -/
def hystStep (state : Label) (z : Option Rat) (zon zoff : Rat) : Label :=
  match z with
  | none => Label.NEUTRAL
  | some x =>
    match state with
    | Label.NEUTRAL => if x ≥ zon then Label.EFFORT else Label.NEUTRAL
    | Label.EFFORT => if x ≤ zoff then Label.NEUTRAL else Label.EFFORT

/-- The label loop: the label recorded for each sample is the state after
processing that sample, starting from `NEUTRAL`. -/
def labelGo (state : Label) (zon zoff : Rat) : List (Option Rat) → List Label
  | [] => []
  | z :: rest =>
    let st := hystStep state z zon zoff
    st :: labelGo st zon zoff rest

/-- Per-sample labels for a z-score series. -/
def labelStates (z : List (Option Rat)) (zon zoff : Rat) : List Label :=
  labelGo Label.NEUTRAL zon zoff z

/-- Run-length encoding loop (`cur`, `start` describe the open run, `i` the
position of the head of the remaining list). -/
def rleGo (cur : Label) (start i : Nat) : List Label → List (Label × Nat × Nat)
  | [] => [(cur, start, i - 1)]
  | l :: rest =>
    if l = cur then rleGo cur start (i + 1) rest
    else (cur, start, i - 1) :: rleGo l i (i + 1) rest

/-- Run-length encoding of the label sequence into `(label, start, end)`
blocks, as in the `# blocs label` loop. -/
def rle : List Label → List (Label × Nat × Nat)
  | [] => []
  | l :: rest => rleGo l 0 1 rest

/-- Acceptance test of one candidate block (`# efforts filtrés` loop body):
only `EFFORT` blocks, both times and both distances present at the block's
own endpoints in the unsmoothed series, duration and distance above the
minima. -/
def acceptEffort (ts : List (Option Int)) (ds : List (Option Rat))
    (min_eff_s : Int) (min_eff_dist_m : Rat) (b : Label × Nat × Nat) :
    Option (Nat × Nat) :=
  match b with
  | (lab, s, e) =>
    if lab = Label.EFFORT then
      match ts.getD s none, ts.getD e none, ds.getD s none, ds.getD e none with
      | some t0, some t1, some d0, some d1 =>
        let dur : Int := max 0 (t1 - t0)
        let dist_seg : Rat := max 0 (d1 - d0)
        if dur < min_eff_s then none
        else if dist_seg < min_eff_dist_m then none
        else some (s, e)
      | _, _, _, _ => none
    else none

/-- The filtered effort candidates, in order. -/
def filterEfforts (blocks : List (Label × Nat × Nat)) (ts : List (Option Int))
    (ds : List (Option Rat)) (min_eff_s : Int) (min_eff_dist_m : Rat) :
    List (Nat × Nat) :=
  blocks.filterMap (acceptEffort ts ds min_eff_s min_eff_dist_m)

/-- Merge loop (`# merge efforts proches`): the accumulator is the last kept
block; a new block whose index gap to it is at most `merge_gap_s` extends
its end, otherwise the kept block is emitted and the new block becomes the
accumulator. -/
def mergeGo (merge_gap_s : Nat) : Nat × Nat → List (Nat × Nat) → List (Nat × Nat)
  | acc, [] => [acc]
  | acc, (s, e) :: rest =>
    if (s : Int) - acc.2 - 1 ≤ merge_gap_s then mergeGo merge_gap_s (acc.1, e) rest
    else acc :: mergeGo merge_gap_s (s, e) rest

/-- Left-to-right merging of accepted effort blocks. -/
def mergeBlocks (merge_gap_s : Nat) : List (Nat × Nat) → List (Nat × Nat)
  | [] => []
  | b :: rest => mergeGo merge_gap_s b rest

/-- `RECUP` spans: for each consecutive pair of effort blocks, the gap
`[end + 1, next_start - 1]`, emitted only when its start is strictly below
its end (computed over the integers, as in the source). -/
def recupSpans : List (Nat × Nat) → List (Nat × Nat)
  | (_, e1) :: (s2, e2) :: rest =>
    (if (e1 : Int) + 1 < (s2 : Int) - 1 then [(e1 + 1, s2 - 1)] else []) ++
      recupSpans ((s2, e2) :: rest)
  | _ => []

/-- The WARMUP span `[0, first_effort.start - 1]`, emitted only when the
first effort starts after index 0. -/
def warmupSpan (first : Nat × Nat) : Option (Nat × Nat) :=
  if 0 < first.1 then some (0, first.1 - 1) else none

/-- The COOLDOWN span `[last_effort.end + 1, last_idx]`, emitted only when
the last effort ends before the last index. -/
def cooldownSpan (last : Nat × Nat) (last_idx : Nat) : Option (Nat × Nat) :=
  if last.2 < last_idx then some (last.2 + 1, last_idx) else none

/-- `_pace_from_duration_distance`. -/
def pace_from_duration_distance (duration_s : Int) (dist_m : Rat) : Option Rat :=
  if dist_m ≤ 0 then none else some ((duration_s : Rat) / dist_m * 1000)

/-- Placeholder point used to model Python list indexing through `getD`
(all indexing in the pipeline is in range). -/
def junkPoint : StreamPoint := ⟨0, none, none, none, none, none⟩

/-- `_make_row`: metrics of one final span `[s_i, e_i]`, with the lenient
index-count fallback for the duration. -/
def make_row (activity_id : Int) (lap_type : LapType) (lap_index : Nat)
    (pts : List StreamPoint) (s_i e_i : Nat) : Row :=
  let p0 := pts.getD s_i junkPoint
  let p1 := pts.getD e_i junkPoint
  let duration : Int :=
    match p0.time_s, p1.time_s with
    | some t0, some t1 => max 0 (t1 - t0)
    | _, _ => max 0 ((e_i : Int) - (s_i : Int))
  let dist_seg : Option Rat :=
    match p0.distance_m, p1.distance_m with
    | some d0, some d1 => some (max 0 (d1 - d0))
    | _, _ => none
  let pace : Option Rat :=
    match dist_seg with
    | some dm => pace_from_duration_distance duration dm
    | none => none
  let seg := (pts.drop s_i).take (e_i + 1 - s_i)
  let hr_seg := seg.filterMap (fun p => p.heartrate_bpm)
  let gr_seg := seg.filterMap (fun p => p.grade)
  ⟨activity_id, lap_index, lap_type, p0.idx, p1.idx,
    p0.time_s, p1.time_s, duration, dist_seg, pace,
    mean hr_seg, mean gr_seg⟩

/-- Python `round` (round half to even), on rationals. -/
def roundHalfEven (q : Rat) : Int :=
  let f := q.floor
  let frac := q - f
  if frac < 1 / 2 then f
  else if 1 / 2 < frac then f + 1
  else if f % 2 = 0 then f else f + 1

/-- The Python `int(round(_median(group) or seed))` of the cluster loop:
a missing or zero (falsy) median falls back to the seed. -/
def clusterMedian (group : List Int) (seed : Int) : Int :=
  match median (group.map (fun d => (d : Rat))) with
  | none => seed
  | some m => if m = 0 then seed else roundHalfEven m

/-- The tolerance of one clustering iteration: `max(8, round(0.15 * seed))`. -/
def clusterTol (seed : Int) : Int :=
  max 8 (roundHalfEven ((seed : Rat) * (0.15 : Rat)))

/-- The group of one clustering iteration: every remaining duration within
`± tol` of the seed. -/
def clusterGroup (remaining : List Int) (seed : Int) : List Int :=
  remaining.filter (fun d => |d - seed| ≤ clusterTol seed)

/-- The working set left after one clustering iteration
(`[d for d in remaining if d not in group]`). -/
def clusterRest (remaining : List Int) (seed : Int) : List Int :=
  remaining.filter (fun d => d ∉ clusterGroup remaining seed)

/-- Main clustering loop over the (descending-sorted) working set.  The
`while remaining:` loop is embedded with an explicit fuel argument; one
element (the seed) is removed per iteration, so a fuel equal to the length
of the working set always suffices. -/
def clusterLoop : Nat → List Int → List Cluster
  | 0, _ => []
  | _, [] => []
  | fuel + 1, seed :: tail =>
    { median_s := clusterMedian (clusterGroup (seed :: tail) seed) seed,
      count := (clusterGroup (seed :: tail) seed).length,
      members := List.insertionSort (fun a b => a ≤ b) (clusterGroup (seed :: tail) seed) }
      :: clusterLoop fuel (clusterRest (seed :: tail) seed)

/-- `_cluster_efforts_by_duration`. -/
def clusterEffortsByDuration (durations : List Int) : List Cluster :=
  if durations = [] then []
  else
    let remaining := List.insertionSort (fun a b => b ≤ a) durations
    let clusters := clusterLoop remaining.length remaining
    List.insertionSort (fun c1 c2 => c2.median_s ≤ c1.median_s) clusters

/-- The per-effort duration used for clustering (`effort_durations` loop):
time difference when both times are present, index difference otherwise. -/
def effortDuration (ts : List (Option Int)) (b : Nat × Nat) : Int :=
  match ts.getD b.1 none, ts.getD b.2 none with
  | some t0, some t1 => max 0 (t1 - t0)
  | _, _ => max 0 ((b.2 : Int) - (b.1 : Int))

/-- `nearest_cluster` scan, keeping the first strict minimum. -/
def nearestGo (d : Int) : List Cluster → Nat → Nat → Int → Nat
  | [], _, best_i, _ => best_i
  | c :: rest, i, best_i, best_err =>
    let err := |d - c.median_s|
    if err < best_err then nearestGo d rest (i + 1) i err
    else nearestGo d rest (i + 1) best_i best_err

/-- `nearest_cluster(d)`: index of the cluster minimising `|d - median_s|`,
earlier clusters winning ties, starting from `best_err = 10^9`. -/
def nearest_cluster (clusters : List Cluster) (d : Int) : Nat :=
  nearestGo d clusters 0 0 (10 ^ 9)

/-- The `# group consecutive sets` loop body. -/
def setsGo (cur_id : Nat) (count : Nat) : List Nat → List (Nat × Nat)
  | [] => [(cur_id, count)]
  | x :: rest =>
    if x = cur_id then setsGo cur_id (count + 1) rest
    else (cur_id, count) :: setsGo x 1 rest

/-- Run-length encoding of the chronological cluster-id sequence. -/
def buildSets : List Nat → List (Nat × Nat)
  | [] => []
  | x :: rest => setsGo x 1 rest

/-- Placeholder cluster for the (always in-range) `clusters[cid]` lookup. -/
def junkCluster : Cluster := ⟨0, 0, []⟩

/-- Smoothed velocity series (`vs_s`). -/
def smoothedVelocities (pts : List StreamPoint) : List (Option Rat) :=
  rolling_mean (pts.map (fun p => p.velocity_m_s)) 9

/-- `valid`: non-null smoothed velocities strictly above `0.5` m/s. -/
def validSpeeds (vs_s : List (Option Rat)) : List Rat :=
  (vs_s.filterMap id).filter (fun v => (0.5 : Rat) < v)

/-- The z-score series of a point stream. -/
def zSeriesOf (pts : List StreamPoint) : List (Option Rat) :=
  let vs_s := smoothedVelocities pts
  let mm := median_mad (validSpeeds vs_s)
  vs_s.map (fun v => robust_z v mm.1 mm.2)

/-- The final effort blocks of a point stream: label, run-length encode,
filter, merge. -/
def effortBlocksOf (pts : List StreamPoint) : List (Nat × Nat) :=
  mergeBlocks 3
    (filterEfforts (rle (labelStates (zSeriesOf pts) 1 (0.4 : Rat)))
      (pts.map (fun p => p.time_s)) (pts.map (fun p => p.distance_m)) 18 (40 : Rat))

/-- WARMUP row emission (`if warmup and warmup[0] <= warmup[1]`). -/
def warmupRowsOf (activity_id : Int) (pts : List StreamPoint)
    (warmup : Option (Nat × Nat)) : List Row :=
  match warmup with
  | some w => if w.1 ≤ w.2 then
      [make_row activity_id LapType.WARMUP 1 pts w.1 w.2] else []
  | none => []

/-- EFFORT row emission, one per final effort block, `lap_index` 1-based. -/
def effortRowsOf (activity_id : Int) (pts : List StreamPoint)
    (bs : List (Nat × Nat)) : List Row :=
  bs.enum.map (fun ib => make_row activity_id LapType.EFFORT (ib.1 + 1) pts ib.2.1 ib.2.2)

/-- RECUP row emission, one per recovery gap, `lap_index` 1-based. -/
def recupRowsOf (activity_id : Int) (pts : List StreamPoint)
    (rec_blocks : List (Nat × Nat)) : List Row :=
  rec_blocks.enum.map
    (fun ib => make_row activity_id LapType.RECUP (ib.1 + 1) pts ib.2.1 ib.2.2)

/-- COOLDOWN row emission (`if cooldown and cooldown[0] <= cooldown[1]`). -/
def cooldownRowsOf (activity_id : Int) (pts : List StreamPoint)
    (cooldown : Option (Nat × Nat)) : List Row :=
  match cooldown with
  | some c => if c.1 ≤ c.2 then
      [make_row activity_id LapType.COOLDOWN 1 pts c.1 c.2] else []
  | none => []

/-- `build_intervals_structure_v4`. -/
def build_intervals_structure_v4 (activity_id : Int) (pts : List StreamPoint) :
    Except String V4Output :=
  if pts = [] then Except.error "Aucun stream_points pour cette activite."
  else
    let vs_s := smoothedVelocities pts
    let valid := validSpeeds vs_s
    if valid.length < 60 then
      Except.ok ⟨false, [], V4Result.insufficient 0 "Not enough valid speed points"⟩
    else
      let mm := median_mad valid
      match effortBlocksOf pts with
      | [] => Except.ok ⟨true, [], V4Result.noEfforts 0 0 "No efforts detected"⟩
      | fb :: restBlocks =>
        let eff_blocks := fb :: restBlocks
        let lastB := eff_blocks.getLast (List.cons_ne_nil _ _)
        let n := pts.length
        let warmup : Option (Nat × Nat) := warmupSpan fb
        let cooldown : Option (Nat × Nat) := cooldownSpan lastB (n - 1)
        let rec_blocks := recupSpans eff_blocks
        let rows := warmupRowsOf activity_id pts warmup ++
          effortRowsOf activity_id pts eff_blocks ++
          recupRowsOf activity_id pts rec_blocks ++
          cooldownRowsOf activity_id pts cooldown
        let effort_durations :=
          eff_blocks.map (effortDuration (pts.map (fun p => p.time_s)))
        let clusters := clusterEffortsByDuration effort_durations
        let seq := effort_durations.map (nearest_cluster clusters)
        let sets := buildSets seq
        Except.ok ⟨true, rows,
          V4Result.success eff_blocks.length rec_blocks.length
            warmup.isSome cooldown.isSome mm.1 mm.2 clusters
            (sets.map (fun s => ((clusters.getD s.1 junkCluster).median_s, s.2)))⟩

/-- Placeholder row used to model list indexing through `getD`. -/
def junkRow : Row :=
  ⟨0, 0, LapType.WARMUP, 0, 0, none, none, 0, none, none, none, none⟩

/-- Interleaving of the effort blocks with the recovery gaps between them,
in index order: `[eff 0, gap 0, eff 1, gap 1, ..., eff (k-1)]`. -/
def interleave : List (Nat × Nat) → List (Nat × Nat) → List (Nat × Nat)
  | [], r => r
  | e :: et, [] => e :: et
  | e :: et, r1 :: rt => e :: r1 :: interleave et rt

/-- Decoder of a run-length encoding: expands each `(label, s, e)` block
into `e - s + 1` copies of its label. -/
def rleDecode (blocks : List (Label × Nat × Nat)) : List Label :=
  blocks.flatMap (fun b => List.replicate (b.2.2 + 1 - b.2.1) b.1)

/-- Index span of a persisted row. -/
def spanOf (r : Row) : Nat × Nat := (r.start_idx, r.end_idx)

/-- Two rows do not overlap in index range. -/
def rowsDisjoint (r1 r2 : Row) : Prop :=
  r1.end_idx < r2.start_idx ∨ r2.end_idx < r1.start_idx

/-- A constant-velocity stream of 60 points (all at 2.5 m/s), used as a
concrete input reaching the no-effort branch. -/
def constPts : List StreamPoint :=
  (List.range 60).map (fun i => ⟨i, some (i : Int), some 0, some (5 / 2), none, none⟩)

/-- A single stream point with no data, used as a concrete input reaching
the insufficient-data branch. -/
def lonePt : StreamPoint := ⟨0, none, none, none, none, none⟩

/-! ## Theorems -/

/-- C9: `robust_z(v, median, mad)` returns null when `v` is null, returns
exactly `0` when `1.4826 * mad ≤ 1e-9`, and returns
`(v - median) / (1.4826 * mad)` otherwise; in particular for `mad = 0`
every non-null point gets z-score exactly `0` and no division error is
possible. -/
theorem C9_robust_z (med mad v : Rat) :
    robust_z none med mad = none ∧
    ((1.4826 : Rat) * mad ≤ (1e-9 : Rat) →
      robust_z (some v) med mad = some 0) ∧
    ((1e-9 : Rat) < (1.4826 : Rat) * mad →
      robust_z (some v) med mad = some ((v - med) / ((1.4826 : Rat) * mad))) ∧
    robust_z (some v) med 0 = some 0 := by
  refine ⟨rfl, ?_, ?_, ?_⟩
  · intro h
    simp only [robust_z, if_pos h]
  · intro h
    simp only [robust_z, if_neg (not_le.mpr h)]
  · simp only [robust_z, mul_zero]
    norm_num

/-- Witness for C9 at `med = 3`, `mad = 0`, `v = 5`. -/
theorem C9_robust_z_witness :
    ((1.4826 : Rat) * 0 ≤ (1e-9 : Rat)) ∧ robust_z (some 5) 3 0 = some 0 :=
  ⟨by norm_num, ((C9_robust_z 3 0 5).2.1 (by norm_num))⟩

/-- C7: the duration clusterer groups `[90, 92, 88, 30, 31, 180]` into
exactly three clusters with medians `180, 90, 30` in descending order,
counts `1, 3, 2` and sorted members; and its output is always sorted
descending by `median_s`. -/
theorem C7_cluster_example :
    clusterEffortsByDuration [90, 92, 88, 30, 31, 180] =
      [⟨180, 1, [180]⟩, ⟨90, 3, [88, 90, 92]⟩, ⟨30, 2, [30, 31]⟩] ∧
    ∀ ds : List Int,
      List.Sorted (fun c1 c2 => c2.median_s ≤ c1.median_s)
        (clusterEffortsByDuration ds) := by
  constructor
  · decide
  · intro ds
    unfold clusterEffortsByDuration
    split
    · exact List.sorted_nil
    · haveI : IsTotal Cluster (fun c1 c2 => c2.median_s ≤ c1.median_s) :=
        ⟨fun a b => le_total b.median_s a.median_s⟩
      haveI : IsTrans Cluster (fun c1 c2 => c2.median_s ≤ c1.median_s) :=
        ⟨fun _ _ _ h1 h2 => le_trans h2 h1⟩
      exact List.sorted_insertionSort _ _

/-- C4: a new accepted block merges into the previously kept block exactly
when the index gap `next.start - prev.end - 1` is at most `merge_gap_s`,
extending the kept block's end; a gap of exactly `3` merges, a gap of `4`
keeps the blocks distinct and yields one RECUP segment between them. -/
theorem C4_merge_gap :
    (∀ (mg : Nat) (acc : Nat × Nat) (s e : Nat) (rest : List (Nat × Nat)),
      mergeGo mg acc ((s, e) :: rest) =
        if (s : Int) - acc.2 - 1 ≤ mg then mergeGo mg (acc.1, e) rest
        else acc :: mergeGo mg (s, e) rest) ∧
    (∀ s1 e1 s2 e2 : Nat, (s2 : Int) - e1 - 1 = 3 →
      mergeBlocks 3 [(s1, e1), (s2, e2)] = [(s1, e2)]) ∧
    (∀ s1 e1 s2 e2 : Nat, (s2 : Int) - e1 - 1 = 4 →
      mergeBlocks 3 [(s1, e1), (s2, e2)] = [(s1, e1), (s2, e2)] ∧
      recupSpans [(s1, e1), (s2, e2)] = [(e1 + 1, s2 - 1)]) := by
  refine ⟨fun mg acc s e rest => rfl, ?_, ?_⟩
  · intro s1 e1 s2 e2 h
    simp only [mergeBlocks, mergeGo]
    rw [if_pos (by omega)]
  · intro s1 e1 s2 e2 h
    constructor
    · simp only [mergeBlocks, mergeGo]
      rw [if_neg (by omega)]
    · simp only [recupSpans]
      rw [if_pos (by omega)]
      simp

/-- Witness for C4 at concrete blocks `(0,10)`–`(14,20)` (gap 3) and
`(0,10)`–`(15,20)` (gap 4). -/
theorem C4_merge_gap_witness :
    ((14 : Int) - 10 - 1 = 3) ∧ mergeBlocks 3 [(0, 10), (14, 20)] = [(0, 20)] ∧
    ((15 : Int) - 10 - 1 = 4) ∧ mergeBlocks 3 [(0, 10), (15, 20)] = [(0, 10), (15, 20)] ∧
    recupSpans [(0, 10), (15, 20)] = [(11, 14)] :=
  ⟨by norm_num, C4_merge_gap.2.1 0 10 14 20 (by norm_num), by norm_num,
    (C4_merge_gap.2.2 0 10 15 20 (by norm_num)).1,
    (C4_merge_gap.2.2 0 10 15 20 (by norm_num)).2⟩

/-- C3: a candidate block is accepted by the effort filter if and only if it
is labelled `EFFORT`, `time_s` and `distance_m` are present at both of its
own endpoints in the unsmoothed series, `max(0, t[e]-t[s]) ≥ 18` and
`max(0, d[e]-d[s]) ≥ 40`; any candidate missing a field is dropped with no
index-based fallback, and what is emitted is the block itself. -/
theorem C3_effort_filter (ts : List (Option Int)) (ds : List (Option Rat)) (s e : Nat) :
    (∀ lab, lab ≠ Label.EFFORT → acceptEffort ts ds 18 40 (lab, s, e) = none) ∧
    (∀ r, acceptEffort ts ds 18 40 (Label.EFFORT, s, e) = some r → r = (s, e)) ∧
    (acceptEffort ts ds 18 40 (Label.EFFORT, s, e) = some (s, e) ↔
      ∃ t0 t1 d0 d1,
        ts.getD s none = some t0 ∧ ts.getD e none = some t1 ∧
        ds.getD s none = some d0 ∧ ds.getD e none = some d1 ∧
        18 ≤ max 0 (t1 - t0) ∧ (40 : Rat) ≤ max 0 (d1 - d0)) := by
  have hEFF : acceptEffort ts ds 18 40 (Label.EFFORT, s, e) =
      match ts.getD s none, ts.getD e none, ds.getD s none, ds.getD e none with
      | some t0, some t1, some d0, some d1 =>
        if max 0 (t1 - t0) < 18 then none
        else if max 0 (d1 - d0) < (40 : Rat) then none
        else some (s, e)
      | _, _, _, _ => none := rfl
  refine ⟨fun lab hl => by simp only [acceptEffort, if_neg hl], ?_, ?_⟩
  · intro r h
    rw [hEFF] at h
    split at h
    · split_ifs at h
      injection h with h2
      exact h2.symm
    · exact Option.noConfusion h
  · constructor
    · intro h
      rw [hEFF] at h
      split at h
      · next t0 t1 d0 d1 hts0 hts1 hds0 hds1 =>
          split_ifs at h with h1 h2
          exact ⟨t0, t1, d0, d1, hts0, hts1, hds0, hds1, not_lt.mp h1, not_lt.mp h2⟩
      · exact Option.noConfusion h
    · rintro ⟨t0, t1, d0, d1, hts0, hts1, hds0, hds1, hdur, hdist⟩
      rw [hEFF, hts0, hts1, hds0, hds1]
      show (if max 0 (t1 - t0) < 18 then none
        else if max 0 (d1 - d0) < (40 : Rat) then none
        else some (s, e)) = some (s, e)
      rw [if_neg (not_lt.mpr hdur), if_neg (not_lt.mpr hdist)]

/-- Witness for C3: a rejected `NEUTRAL` block and an accepted `EFFORT`
block of duration 20 s and distance 50 m. -/
theorem C3_effort_filter_witness :
    acceptEffort [some 0, some 20] [some 0, some 50] 18 40 (Label.NEUTRAL, 0, 1) = none ∧
    acceptEffort [some 0, some 20] [some 0, some 50] 18 40 (Label.EFFORT, 0, 1) = some (0, 1) :=
  ⟨(C3_effort_filter [some 0, some 20] [some 0, some 50] 0 1).1 Label.NEUTRAL (by decide),
    (C3_effort_filter [some 0, some 20] [some 0, some 50] 0 1).2.2.mpr
      ⟨0, 20, 0, 50, by decide, by decide, by decide, by decide, by decide, by decide⟩⟩

/-- `recupSpans` is exactly the per-consecutive-pair gap computation. -/
theorem recupSpans_eq_filterMap (bs : List (Nat × Nat)) :
    recupSpans bs = (List.range (bs.length - 1)).filterMap (fun i =>
      if ((bs.getD i (0, 0)).2 : Int) + 1 < ((bs.getD (i + 1) (0, 0)).1 : Int) - 1
      then some ((bs.getD i (0, 0)).2 + 1, (bs.getD (i + 1) (0, 0)).1 - 1)
      else none) := by
  induction bs with
  | nil => rfl
  | cons a t ih =>
    cases t with
    | nil => rfl
    | cons b t2 =>
      rw [recupSpans, ih]
      rw [show (a :: b :: t2).length - 1 = t2.length + 1 by simp]
      rw [List.range_succ_eq_map, List.filterMap_cons, List.filterMap_map]
      have harg : ((fun i =>
          if ((((a :: b :: t2).getD i (0, 0)).2 : Int)) + 1 <
              ((((a :: b :: t2).getD (i + 1) (0, 0)).1 : Int)) - 1
          then some (((a :: b :: t2).getD i (0, 0)).2 + 1,
            ((a :: b :: t2).getD (i + 1) (0, 0)).1 - 1)
          else none) ∘ Nat.succ) = (fun i =>
          if ((((b :: t2).getD i (0, 0)).2 : Int)) + 1 <
              ((((b :: t2).getD (i + 1) (0, 0)).1 : Int)) - 1
          then some (((b :: t2).getD i (0, 0)).2 + 1,
            ((b :: t2).getD (i + 1) (0, 0)).1 - 1)
          else none) := by
        funext i
        simp [Function.comp, List.getD_cons_succ]
      rw [harg]
      by_cases hc : ((a.2 : Int)) + 1 < ((b.1 : Int)) - 1
      · rw [if_pos hc]
        simp only [List.getD_cons_zero, List.getD_cons_succ]
        rw [if_pos hc]
        rfl
      · rw [if_neg hc]
        simp only [List.getD_cons_zero, List.getD_cons_succ]
        rw [if_neg hc]
        rfl

/-- C1: when at least one effort block survives, the derived spans are
exactly: a WARMUP `[0, first.start - 1]` emitted iff `first.start > 0`, a
COOLDOWN `[last.end + 1, last_idx]` emitted iff `last.end < last_idx`, and
one RECUP `[effort[i].end + 1, effort[i+1].start - 1]` per consecutive pair
emitted iff its start is strictly below its end, non-positive gaps being
skipped rather than emitted as zero-length spans. -/
theorem C1_derived_spans (first last : Nat × Nat) (last_idx : Nat)
    (bs : List (Nat × Nat)) (_hbs : bs ≠ []) :
    ((warmupSpan first).isSome ↔ 0 < first.1) ∧
    (∀ w, warmupSpan first = some w → w = (0, first.1 - 1)) ∧
    ((cooldownSpan last last_idx).isSome ↔ last.2 < last_idx) ∧
    (∀ c, cooldownSpan last last_idx = some c → c = (last.2 + 1, last_idx)) ∧
    recupSpans bs = (List.range (bs.length - 1)).filterMap (fun i =>
      if ((bs.getD i (0, 0)).2 : Int) + 1 < ((bs.getD (i + 1) (0, 0)).1 : Int) - 1
      then some ((bs.getD i (0, 0)).2 + 1, (bs.getD (i + 1) (0, 0)).1 - 1)
      else none) := by
  refine ⟨?_, ?_, ?_, ?_, recupSpans_eq_filterMap bs⟩
  · unfold warmupSpan
    split_ifs with h <;> simpa using h
  · intro w hw
    unfold warmupSpan at hw
    split_ifs at hw
    exact (Option.some.injEq _ _).mp hw.symm
  · unfold cooldownSpan
    split_ifs with h <;> simpa using h
  · intro c hc
    unfold cooldownSpan at hc
    split_ifs at hc
    exact (Option.some.injEq _ _).mp hc.symm

/-- Witness for C1 at a concrete three-effort configuration. -/
theorem C1_derived_spans_witness :
    (warmupSpan (5, 10)).isSome ∧
    recupSpans [(0, 5), (9, 12), (14, 20)] =
      (List.range 2).filterMap (fun i =>
        if ((([(0, 5), (9, 12), (14, 20)].getD i (0, 0)).2 : Int)) + 1 <
            ((([(0, 5), (9, 12), (14, 20)].getD (i + 1) (0, 0)).1 : Int)) - 1
        then some (([(0, 5), (9, 12), (14, 20)].getD i (0, 0)).2 + 1,
          ([(0, 5), (9, 12), (14, 20)].getD (i + 1) (0, 0)).1 - 1)
        else none) :=
  ⟨(C1_derived_spans (5, 10) (20, 30) 40 [(0, 5)] (by simp)).1.mpr (by decide),
    (C1_derived_spans (5, 10) (20, 30) 40 [(0, 5), (9, 12), (14, 20)] (by simp)).2.2.2.2⟩

theorem rleDecode_cons (b : Label × Nat × Nat) (bs : List (Label × Nat × Nat)) :
    rleDecode (b :: bs) = List.replicate (b.2.2 + 1 - b.2.1) b.1 ++ rleDecode bs := by
  simp [rleDecode]

/-- Full specification of the run-length encoding loop. -/
theorem rleGo_spec (rest : List Label) : ∀ (cur : Label) (start i : Nat), start < i →
    rleDecode (rleGo cur start i rest) = List.replicate (i - start) cur ++ rest ∧
    List.Chain' (fun a b => a.1 ≠ b.1 ∧ b.2.1 = a.2.2 + 1) (rleGo cur start i rest) ∧
    (∀ b ∈ rleGo cur start i rest,
      start ≤ b.2.1 ∧ b.2.1 ≤ b.2.2 ∧ b.2.2 ≤ i - 1 + rest.length) ∧
    (rleGo cur start i rest).head?.map (fun b => (b.1, b.2.1)) = some (cur, start) ∧
    ((rleGo cur start i rest).getLast?).map (fun b => b.2.2) =
      some (i - 1 + rest.length) := by
  induction rest with
  | nil =>
    intro cur start i hsi
    refine ⟨?_, ?_, ?_, ?_, ?_⟩
    · show rleDecode [(cur, start, i - 1)] = _
      rw [rleDecode_cons]
      simp only [List.length_nil, Nat.add_zero]
      rw [show i - 1 + 1 - start = i - start by omega]
      simp [rleDecode]
    · exact List.chain'_singleton _
    · intro b hb
      simp only [rleGo, List.mem_singleton] at hb
      subst hb
      refine ⟨le_refl _, ?_, ?_⟩
      · show start ≤ i - 1
        omega
      · show i - 1 ≤ i - 1 + ([] : List Label).length
        simp
    · rfl
    · rfl
  | cons l rest ih =>
    intro cur start i hsi
    by_cases hl : l = cur
    · have hred : rleGo cur start i (l :: rest) = rleGo cur start (i + 1) rest := by
        simp [rleGo, hl]
      obtain ⟨h1, h2, h3, h4, h5⟩ := ih cur start (i + 1) (by omega)
      rw [hred]
      refine ⟨?_, h2, ?_, h4, ?_⟩
      · rw [h1, hl]
        rw [show i + 1 - start = (i - start) + 1 by omega]
        rw [List.replicate_succ']
        simp
      · intro b hb
        obtain ⟨hb1, hb2, hb3⟩ := h3 b hb
        refine ⟨hb1, hb2, ?_⟩
        simp only [List.length_cons]
        omega
      · rw [show i - 1 + (l :: rest).length = i + 1 - 1 + rest.length by
          simp only [List.length_cons]; omega]
        exact h5
    · have hred : rleGo cur start i (l :: rest) =
          (cur, start, i - 1) :: rleGo l i (i + 1) rest := by
        simp [rleGo, hl]
      obtain ⟨h1, h2, h3, h4, h5⟩ := ih l i (i + 1) (by omega)
      rw [hred]
      have hne : rleGo l i (i + 1) rest ≠ [] := by
        intro hnil
        rw [hnil] at h4
        exact Option.noConfusion h4
      refine ⟨?_, ?_, ?_, ?_, ?_⟩
      · rw [rleDecode_cons, h1]
        rw [show i - 1 + 1 - start = i - start by omega,
          show i + 1 - i = 1 by omega]
        simp
      · refine List.chain'_cons'.mpr ⟨?_, h2⟩
        intro b hb
        cases hh : (rleGo l i (i + 1) rest).head? with
        | none => rw [hh] at hb; exact absurd hb (by simp)
        | some hd =>
          rw [hh] at hb
          simp only [Option.mem_some_iff] at hb
          subst hb
          rw [hh] at h4
          simp only [Option.map_some', Option.some.injEq] at h4
          have hb1 : hd.1 = l := congrArg Prod.fst h4
          have hb2 : hd.2.1 = i := congrArg Prod.snd h4
          constructor
          · show cur ≠ hd.1
            rw [hb1]
            exact fun hcc => hl hcc.symm
          · show hd.2.1 = i - 1 + 1
            omega
      · intro b hb
        rcases List.mem_cons.mp hb with hb | hb
        · subst hb
          refine ⟨le_refl _, ?_, ?_⟩
          · show start ≤ i - 1
            omega
          · show i - 1 ≤ i - 1 + (l :: rest).length
            simp only [List.length_cons]
            omega
        · obtain ⟨hb1, hb2, hb3⟩ := h3 b hb
          refine ⟨by omega, hb2, ?_⟩
          simp only [List.length_cons]
          omega
      · rfl
      · obtain ⟨hd, tl, htl⟩ : ∃ hd tl, rleGo l i (i + 1) rest = hd :: tl := by
          cases hR : rleGo l i (i + 1) rest with
          | nil => exact absurd hR hne
          | cons hd tl => exact ⟨hd, tl, rfl⟩
        rw [htl]
        rw [htl] at h5
        rw [List.getLast?_cons_cons]
        rw [show i - 1 + (l :: rest).length = i + 1 - 1 + rest.length by
          simp only [List.length_cons]; omega]
        exact h5

/-- Specification of `rle` on a non-empty label sequence: decoding recovers
the input, adjacent blocks carry different labels and are index-contiguous,
blocks are well-formed and the encoding covers `[0, length - 1]`. -/
theorem rle_spec (L : List Label) (hL : L ≠ []) :
    rleDecode (rle L) = L ∧
    List.Chain' (fun a b => a.1 ≠ b.1 ∧ b.2.1 = a.2.2 + 1) (rle L) ∧
    (∀ b ∈ rle L, b.2.1 ≤ b.2.2 ∧ b.2.2 ≤ L.length - 1) ∧
    (rle L).head?.map (fun b => b.2.1) = some 0 ∧
    ((rle L).getLast?).map (fun b => b.2.2) = some (L.length - 1) ∧
    rle L ≠ [] := by
  cases L with
  | nil => exact absurd rfl hL
  | cons a t =>
    obtain ⟨h1, h2, h3, h4, h5⟩ := rleGo_spec t a 0 1 (by omega)
    have hne : rleGo a 0 1 t ≠ [] := by
      intro hnil
      rw [hnil] at h4
      exact Option.noConfusion h4
    refine ⟨?_, h2, ?_, ?_, ?_, hne⟩
    · show rleDecode (rleGo a 0 1 t) = a :: t
      rw [h1]
      simp
    · intro b hb
      obtain ⟨_, hb2, hb3⟩ := h3 b hb
      exact ⟨hb2, by simpa using hb3⟩
    · show (rleGo a 0 1 t).head?.map (fun b => b.2.1) = some 0
      cases hh : (rleGo a 0 1 t).head? with
      | none => exact absurd hh (by intro h; rw [List.head?_eq_none_iff] at h; exact hne h)
      | some hd =>
        rw [hh] at h4
        simp only [Option.map_some', Option.some.injEq] at h4
        have : hd.2.1 = 0 := congrArg Prod.snd h4
        simp [hh, this]
    · show ((rleGo a 0 1 t).getLast?).map (fun b => b.2.2) = some ((a :: t).length - 1)
      rw [h5]
      simp

/-- C2: per-sample labels follow the two-state hysteresis machine started
in `NEUTRAL` (null z forces `NEUTRAL`; from `NEUTRAL`, `z ≥ on_threshold`
switches to `EFFORT`; from `EFFORT`, `z ≤ off_threshold` switches back;
otherwise unchanged), the label of each sample being the state after
processing it; and the label sequence is run-length-encoded into
contiguous `(label, start_idx, end_idx)` blocks: decoding the blocks
recovers the exact label sequence, adjacent blocks have different labels,
and the blocks tile `[0, length - 1]` contiguously. -/
theorem C2_hysteresis_labels (z : List (Option Rat)) (zon zoff : Rat) :
    (labelStates z zon zoff).length = z.length ∧
    (∀ i, i < z.length →
      (labelStates z zon zoff).getD i Label.NEUTRAL =
        hystStep (if i = 0 then Label.NEUTRAL
            else (labelStates z zon zoff).getD (i - 1) Label.NEUTRAL)
          (z.getD i none) zon zoff) ∧
    (z ≠ [] →
      rleDecode (rle (labelStates z zon zoff)) = labelStates z zon zoff ∧
      List.Chain' (fun a b => a.1 ≠ b.1 ∧ b.2.1 = a.2.2 + 1)
        (rle (labelStates z zon zoff)) ∧
      (∀ b ∈ rle (labelStates z zon zoff), b.2.1 ≤ b.2.2 ∧ b.2.2 ≤ z.length - 1) ∧
      (rle (labelStates z zon zoff)).head?.map (fun b => b.2.1) = some 0 ∧
      ((rle (labelStates z zon zoff)).getLast?).map (fun b => b.2.2) =
        some (z.length - 1)) := by
  have hlen : ∀ (w : List (Option Rat)) (st : Label),
      (labelGo st zon zoff w).length = w.length := by
    intro w
    induction w with
    | nil => intro st; rfl
    | cons a rest ih => intro st; simp [labelGo, ih]
  have hrec : ∀ (w : List (Option Rat)) (st : Label) (i : Nat), i < w.length →
      (labelGo st zon zoff w).getD i Label.NEUTRAL =
        hystStep (if i = 0 then st
            else (labelGo st zon zoff w).getD (i - 1) Label.NEUTRAL)
          (w.getD i none) zon zoff := by
    intro w
    induction w with
    | nil => intro st i h; exact absurd h (by simp)
    | cons a rest ih =>
      intro st i h
      cases i with
      | zero => rfl
      | succ k =>
        cases k with
        | zero =>
          have h2 : 0 < rest.length := by simpa using h
          simpa [labelGo] using ih (hystStep st a zon zoff) 0 h2
        | succ m =>
          have h2 : m + 1 < rest.length := by simpa using h
          simpa [labelGo] using ih (hystStep st a zon zoff) (m + 1) h2
  refine ⟨hlen z Label.NEUTRAL, hrec z Label.NEUTRAL, ?_⟩
  intro hz
  have hlenS : (labelStates z zon zoff).length = z.length := hlen z Label.NEUTRAL
  have hLne : labelStates z zon zoff ≠ [] := by
    intro hnil
    rw [hnil] at hlenS
    exact hz (List.length_eq_zero.mp hlenS.symm)
  obtain ⟨g1, g2, g3, g4, g5, _⟩ := rle_spec (labelStates z zon zoff) hLne
  rw [hlenS] at g3 g5
  exact ⟨g1, g2, g3, g4, g5⟩

/-- Witness for C2 on a concrete z-series crossing both thresholds. -/
theorem C2_hysteresis_labels_witness :
    labelStates [some 0, some 2, some (1 / 2), some (1 / 5), none] 1 (2 / 5) =
      [Label.NEUTRAL, Label.EFFORT, Label.EFFORT, Label.NEUTRAL, Label.NEUTRAL] ∧
    rleDecode (rle (labelStates [some 0, some 2, some (1 / 2), some (1 / 5), none] 1 (2 / 5))) =
      labelStates [some 0, some 2, some (1 / 2), some (1 / 5), none] 1 (2 / 5) :=
  ⟨by decide,
    ((C2_hysteresis_labels [some 0, some 2, some (1 / 2), some (1 / 5), none] 1
      (2 / 5)).2.2 (by simp)).1⟩

/-- C6 (amended): if fewer than 60 valid smoothed velocity samples exist
(non-null and strictly above 0.5 m/s), detection returns the soft result
with `effort_count = 0` and note `"Not enough valid speed points"` without
raising and without touching persisted data (no delete, no insert). -/
theorem C6_insufficient_data (activity_id : Int) (pts : List StreamPoint)
    (hne : pts ≠ [])
    (hvalid : (validSpeeds (smoothedVelocities pts)).length < 60) :
    build_intervals_structure_v4 activity_id pts =
      Except.ok ⟨false, [], V4Result.insufficient 0 "Not enough valid speed points"⟩ := by
  simp only [build_intervals_structure_v4, if_neg hne, if_pos hvalid]

/-- Counterexample to C6 as stated: at a one-point stream the soft result's
note is `"Not enough valid speed points"`, not `"insufficient data"`. -/
theorem C6_note_counterexample :
    build_intervals_structure_v4 1 [lonePt] =
      Except.ok ⟨false, [], V4Result.insufficient 0 "Not enough valid speed points"⟩ ∧
    "Not enough valid speed points" ≠ "insufficient data" :=
  ⟨by decide, by decide⟩

/-- Witness for C6 at the one-point stream. -/
theorem C6_insufficient_data_witness :
    ([lonePt] : List StreamPoint) ≠ [] ∧
    (validSpeeds (smoothedVelocities [lonePt])).length < 60 ∧
    build_intervals_structure_v4 2 [lonePt] =
      Except.ok ⟨false, [], V4Result.insufficient 0 "Not enough valid speed points"⟩ :=
  ⟨by decide, by decide, C6_insufficient_data 2 [lonePt] (by decide) (by decide)⟩

/-- C5 (amended): if zero effort blocks survive filtering and merging (and
the valid-sample floor was met), detection deletes the previously persisted
structural rows, inserts nothing, and returns `effort_count = 0`,
`recup_count = 0` with note `"No efforts detected"`. -/
theorem C5_no_efforts (activity_id : Int) (pts : List StreamPoint)
    (hne : pts ≠ [])
    (hvalid : ¬(validSpeeds (smoothedVelocities pts)).length < 60)
    (hblocks : effortBlocksOf pts = []) :
    build_intervals_structure_v4 activity_id pts =
      Except.ok ⟨true, [], V4Result.noEfforts 0 0 "No efforts detected"⟩ := by
  simp only [build_intervals_structure_v4, if_neg hne, if_neg hvalid]
  rw [hblocks]

/-- Counterexample to C5 as stated: on a constant-velocity stream of 60
valid points the result's note is `"No efforts detected"`, not
`"no efforts detected"`. -/
theorem C5_note_counterexample :
    build_intervals_structure_v4 1 constPts =
      Except.ok ⟨true, [], V4Result.noEfforts 0 0 "No efforts detected"⟩ ∧
    "No efforts detected" ≠ "no efforts detected" :=
  ⟨by decide, by decide⟩

/-- Witness for C5 at the constant-velocity stream. -/
theorem C5_no_efforts_witness :
    constPts ≠ [] ∧
    ¬(validSpeeds (smoothedVelocities constPts)).length < 60 ∧
    effortBlocksOf constPts = [] ∧
    build_intervals_structure_v4 2 constPts =
      Except.ok ⟨true, [], V4Result.noEfforts 0 0 "No efforts detected"⟩ :=
  ⟨by decide, by decide, by decide,
    C5_no_efforts 2 constPts (by decide) (by decide) (by decide)⟩

theorem setsGo_sum (seq : List Nat) : ∀ (cid cnt : Nat),
    ((setsGo cid cnt seq).map Prod.snd).sum = cnt + seq.length := by
  induction seq with
  | nil => intro cid cnt; simp [setsGo]
  | cons x rest ih =>
    intro cid cnt
    show ((if x = cid then setsGo cid (cnt + 1) rest
      else (cid, cnt) :: setsGo x 1 rest).map Prod.snd).sum = cnt + (x :: rest).length
    split_ifs with hx
    · rw [ih]
      simp only [List.length_cons]
      omega
    · simp only [List.map_cons, List.sum_cons, ih, List.length_cons]
      omega

theorem buildSets_sum (seq : List Nat) :
    ((buildSets seq).map Prod.snd).sum = seq.length := by
  cases seq with
  | nil => rfl
  | cons x rest =>
    show ((setsGo x 1 rest).map Prod.snd).sum = (x :: rest).length
    rw [setsGo_sum rest x 1]
    simp [Nat.add_comm]

theorem clusterRest_eq (remaining : List Int) (seed : Int) :
    clusterRest remaining seed =
      remaining.filter (fun d => !(decide (|d - seed| ≤ clusterTol seed))) := by
  unfold clusterRest
  apply List.filter_congr
  intro d hd
  by_cases h : d ∈ clusterGroup remaining seed
  · have hq := (List.mem_filter.mp h).2
    simp [h, hq]
  · have hq : ¬(|d - seed| ≤ clusterTol seed) := fun hc =>
      h (List.mem_filter.mpr ⟨hd, by simpa using hc⟩)
    simp [h, hq]

theorem clusterGroup_append_rest_perm (remaining : List Int) (seed : Int) :
    (clusterGroup remaining seed ++ clusterRest remaining seed).Perm remaining := by
  rw [clusterRest_eq]
  exact List.filter_append_perm _ remaining

theorem seed_mem_clusterGroup (seed : Int) (tail : List Int) :
    seed ∈ clusterGroup (seed :: tail) seed := by
  apply List.mem_filter.mpr
  refine ⟨List.mem_cons_self _ _, ?_⟩
  simp only [sub_self, abs_zero, decide_eq_true_eq]
  exact le_trans (by norm_num) (le_max_left 8 _)

theorem clusterRest_length_le (seed : Int) (tail : List Int) :
    (clusterRest (seed :: tail) seed).length ≤ tail.length := by
  unfold clusterRest
  rw [List.filter_cons]
  rw [if_neg (by simp [seed_mem_clusterGroup seed tail])]
  exact List.length_filter_le _ _

/-- The clustering loop partitions its working set: the members of the
produced clusters are a permutation of the input, and each cluster's
`count` is the size of its member list. -/
theorem clusterLoop_partition : ∀ (fuel : Nat) (l : List Int), l.length ≤ fuel →
    ((clusterLoop fuel l).flatMap (fun c => c.members)).Perm l ∧
    ∀ c ∈ clusterLoop fuel l, c.count = c.members.length := by
  intro fuel
  induction fuel with
  | zero =>
    intro l hl
    have hnil : l = [] := List.length_eq_zero.mp (Nat.le_zero.mp hl)
    subst hnil
    exact ⟨List.Perm.refl _, by simp [clusterLoop]⟩
  | succ fuel ih =>
    intro l hl
    cases l with
    | nil => exact ⟨by simp [clusterLoop], by simp [clusterLoop]⟩
    | cons seed tail =>
      have hrest : (clusterRest (seed :: tail) seed).length ≤ fuel := by
        have h1 := clusterRest_length_le seed tail
        have h2 : (seed :: tail).length ≤ fuel + 1 := hl
        simp only [List.length_cons] at h2
        omega
      obtain ⟨ihp, ihc⟩ := ih (clusterRest (seed :: tail) seed) hrest
      constructor
      · show (List.insertionSort (fun a b => a ≤ b) (clusterGroup (seed :: tail) seed) ++
          (clusterLoop fuel (clusterRest (seed :: tail) seed)).flatMap
            (fun c => c.members)).Perm (seed :: tail)
        exact ((List.perm_insertionSort _ _).append ihp).trans
          (clusterGroup_append_rest_perm _ _)
      · intro c hc
        rcases List.mem_cons.mp hc with hc | hc
        · subst hc
          show (clusterGroup (seed :: tail) seed).length =
            (List.insertionSort (fun a b => a ≤ b) (clusterGroup (seed :: tail) seed)).length
          rw [List.length_insertionSort]
        · exact ihc c hc

/-- C10: the clusters returned by the duration clusterer partition the
input multiset (members are a permutation of the inputs, each counted in
exactly one cluster, counts summing to the input length); and the
run-length-encoded `sets` counts always sum to the number of effort
durations, which is one per effort block. -/
theorem C10_cluster_partition (durations : List Int) :
    ((clusterEffortsByDuration durations).flatMap (fun c => c.members)).Perm durations ∧
    (∀ c ∈ clusterEffortsByDuration durations, c.count = c.members.length) ∧
    ((clusterEffortsByDuration durations).map (fun c => c.count)).sum =
      durations.length ∧
    (∀ clusters : List Cluster,
      ((buildSets (durations.map (nearest_cluster clusters))).map Prod.snd).sum =
        durations.length) ∧
    ∀ (bs : List (Nat × Nat)) (ts : List (Option Int)),
      (bs.map (effortDuration ts)).length = bs.length := by
  have hmain :
      ((clusterEffortsByDuration durations).flatMap (fun c => c.members)).Perm durations ∧
      ∀ c ∈ clusterEffortsByDuration durations, c.count = c.members.length := by
    unfold clusterEffortsByDuration
    split_ifs with hd
    · subst hd
      exact ⟨List.Perm.refl _, by simp⟩
    · obtain ⟨hp, hc⟩ := clusterLoop_partition
        (List.insertionSort (fun a b => b ≤ a) durations).length
        (List.insertionSort (fun a b => b ≤ a) durations) (le_refl _)
      constructor
      · exact ((List.perm_insertionSort _ _).flatMap_right _).trans
          (hp.trans (List.perm_insertionSort _ _))
      · intro c hcmem
        exact hc c ((List.perm_insertionSort _ _).mem_iff.mp hcmem)
  refine ⟨hmain.1, hmain.2, ?_, ?_, ?_⟩
  · have h1 : (clusterEffortsByDuration durations).map (fun c => c.count) =
        (clusterEffortsByDuration durations).map (fun c => c.members.length) :=
      List.map_congr_left (fun c hc => hmain.2 c hc)
    rw [h1]
    have h2 := hmain.1.length_eq
    rw [List.length_flatMap] at h2
    exact h2
  · intro clusters
    rw [buildSets_sum, List.length_map]
  · intro bs ts
    exact List.length_map _ _

theorem rolling_mean_length (values : List (Option Rat)) (window : Nat) :
    (rolling_mean values window).length = values.length := by
  unfold rolling_mean
  split_ifs with h
  · rfl
  · simp

theorem labelGo_length_eq (zon zoff : Rat) (z : List (Option Rat)) :
    ∀ st, (labelGo st zon zoff z).length = z.length := by
  induction z with
  | nil => intro st; rfl
  | cons a rest ih => intro st; simp [labelGo, ih]

theorem zSeriesOf_length (pts : List StreamPoint) :
    (zSeriesOf pts).length = pts.length := by
  unfold zSeriesOf smoothedVelocities
  simp [rolling_mean_length]

theorem acceptEffort_some (ts : List (Option Int)) (ds : List (Option Rat))
    (m : Int) (dm : Rat) (b : Label × Nat × Nat) (r : Nat × Nat)
    (h : acceptEffort ts ds m dm b = some r) : r = b.2 := by
  obtain ⟨lab, s, e⟩ := b
  by_cases hlab : lab = Label.EFFORT
  · subst hlab
    have hEFF : acceptEffort ts ds m dm (Label.EFFORT, s, e) =
        match ts.getD s none, ts.getD e none, ds.getD s none, ds.getD e none with
        | some t0, some t1, some d0, some d1 =>
          if max 0 (t1 - t0) < m then none
          else if max 0 (d1 - d0) < dm then none
          else some (s, e)
        | _, _, _, _ => none := rfl
    rw [hEFF] at h
    split at h
    · split_ifs at h
      injection h with h2
      exact h2.symm
    · exact Option.noConfusion h
  · rw [show acceptEffort ts ds m dm (lab, s, e) = none from by
      simp only [acceptEffort, if_neg hlab]] at h
    exact Option.noConfusion h

theorem filterEfforts_sublist (blocks : List (Label × Nat × Nat))
    (ts : List (Option Int)) (ds : List (Option Rat)) (m : Int) (dm : Rat) :
    (filterEfforts blocks ts ds m dm).Sublist (blocks.map (fun b => b.2)) := by
  induction blocks with
  | nil => simp [filterEfforts]
  | cons b rest ih =>
    simp only [filterEfforts, List.filterMap_cons, List.map_cons]
    cases hb : acceptEffort ts ds m dm b with
    | none => exact ih.cons _
    | some r =>
      rw [acceptEffort_some ts ds m dm b r hb]
      exact ih.cons₂ _

theorem chain_blocks_all (a : Nat × Nat) (t : List (Nat × Nat))
    (hwf : ∀ b ∈ t, b.1 ≤ b.2)
    (hch : List.Chain' (fun p q : Nat × Nat => p.2 < q.1) (a :: t)) :
    ∀ b ∈ t, a.2 < b.1 := by
  induction t generalizing a with
  | nil => intro b hb; exact absurd hb (by simp)
  | cons c t2 ih =>
    intro b hb
    have hac : a.2 < c.1 := (List.chain'_cons.mp hch).1
    rcases List.mem_cons.mp hb with hb | hb
    · subst hb; exact hac
    · have hcb : c.2 < b.1 :=
        ih c (fun x hx => hwf x (List.mem_cons_of_mem _ hx))
          (List.chain'_cons.mp hch).2 b hb
      have hcwf : c.1 ≤ c.2 := hwf c (List.mem_cons_self _ _)
      omega

theorem chain_blocks_pairwise (l : List (Nat × Nat))
    (hwf : ∀ b ∈ l, b.1 ≤ b.2)
    (hch : List.Chain' (fun p q : Nat × Nat => p.2 < q.1) l) :
    List.Pairwise (fun p q : Nat × Nat => p.2 < q.1) l := by
  induction l with
  | nil => exact List.Pairwise.nil
  | cons a t ih =>
    refine List.Pairwise.cons ?_
      (ih (fun b hb => hwf b (List.mem_cons_of_mem _ hb)) (List.chain'_cons'.mp hch).2)
    exact chain_blocks_all a t (fun b hb => hwf b (List.mem_cons_of_mem _ hb)) hch

/-- Invariants of the merge loop: given an accumulator below `n` and a
well-formed, strictly ordered tail, the output blocks are well-formed, all
start at or after the accumulator's start, and consecutive output blocks
are separated by an index gap strictly above `merge_gap_s`. -/
theorem mergeGo_spec (mg n : Nat) : ∀ (l : List (Nat × Nat)) (acc : Nat × Nat),
    acc.1 ≤ acc.2 → acc.2 < n →
    (∀ b ∈ l, b.1 ≤ b.2 ∧ b.2 < n) →
    List.Pairwise (fun p q : Nat × Nat => p.2 < q.1) (acc :: l) →
    (mergeGo mg acc l ≠ [] ∧
      (∀ b ∈ mergeGo mg acc l, b.1 ≤ b.2 ∧ b.2 < n ∧ acc.1 ≤ b.1) ∧
      List.Pairwise (fun p q : Nat × Nat => p.2 + mg + 1 < q.1) (mergeGo mg acc l) ∧
      (mergeGo mg acc l).head?.map (fun b => b.1) = some acc.1) := by
  intro l
  induction l with
  | nil =>
    intro acc h1 h2 _ _
    refine ⟨by simp [mergeGo], ?_, by simp [mergeGo], by simp [mergeGo]⟩
    intro b hb
    simp only [mergeGo, List.mem_singleton] at hb
    subst hb
    exact ⟨h1, h2, le_refl _⟩
  | cons se rest ih =>
    obtain ⟨s, e⟩ := se
    intro acc h1 h2 hl hp
    have hacc_s : acc.2 < s :=
      (List.pairwise_cons.mp hp).1 (s, e) (List.mem_cons_self _ _)
    have hse := hl (s, e) (List.mem_cons_self _ _)
    have hs_le_e : s ≤ e := hse.1
    have he_lt_n : e < n := hse.2
    have hptail : List.Pairwise (fun p q : Nat × Nat => p.2 < q.1) ((s, e) :: rest) :=
      (List.pairwise_cons.mp hp).2
    by_cases hgap : (s : Int) - acc.2 - 1 ≤ mg
    · have hred : mergeGo mg acc ((s, e) :: rest) = mergeGo mg (acc.1, e) rest := by
        simp only [mergeGo, if_pos hgap]
      rw [hred]
      have hrest_p : List.Pairwise (fun p q : Nat × Nat => p.2 < q.1)
          ((acc.1, e) :: rest) := by
        refine List.pairwise_cons.mpr ⟨?_, (List.pairwise_cons.mp hptail).2⟩
        intro b hb
        exact (List.pairwise_cons.mp hptail).1 b hb
      obtain ⟨g1, g2, g3, g4⟩ := ih (acc.1, e) (by show acc.1 ≤ e; omega) he_lt_n
        (fun b hb => hl b (List.mem_cons_of_mem _ hb)) hrest_p
      exact ⟨g1, g2, g3, g4⟩
    · have hred : mergeGo mg acc ((s, e) :: rest) = acc :: mergeGo mg (s, e) rest := by
        simp only [mergeGo, if_neg hgap]
      rw [hred]
      obtain ⟨g1, g2, g3, g4⟩ := ih (s, e) hs_le_e he_lt_n
        (fun b hb => hl b (List.mem_cons_of_mem _ hb)) hptail
      refine ⟨List.cons_ne_nil _ _, ?_, ?_, by simp⟩
      · intro b hb
        rcases List.mem_cons.mp hb with hb | hb
        · subst hb; exact ⟨h1, h2, le_refl _⟩
        · obtain ⟨k1, k2, k3⟩ := g2 b hb
          have k3n : s ≤ b.1 := k3
          exact ⟨k1, k2, by omega⟩
      · refine List.pairwise_cons.mpr ⟨?_, g3⟩
        intro b hb
        obtain ⟨k1, k2, k3⟩ := g2 b hb
        have k3n : s ≤ b.1 := k3
        omega

/-- Invariants of `mergeBlocks`. -/
theorem mergeBlocks_spec (mg n : Nat) (l : List (Nat × Nat))
    (hl : ∀ b ∈ l, b.1 ≤ b.2 ∧ b.2 < n)
    (hp : List.Pairwise (fun p q : Nat × Nat => p.2 < q.1) l) :
    (∀ b ∈ mergeBlocks mg l, b.1 ≤ b.2 ∧ b.2 < n) ∧
    List.Pairwise (fun p q : Nat × Nat => p.2 + mg + 1 < q.1) (mergeBlocks mg l) := by
  cases l with
  | nil => exact ⟨by simp [mergeBlocks], by simp [mergeBlocks]⟩
  | cons b rest =>
    have hb := hl b (List.mem_cons_self _ _)
    obtain ⟨_, g2, g3, _⟩ := mergeGo_spec mg n rest b hb.1 hb.2
      (fun x hx => hl x (List.mem_cons_of_mem _ hx)) hp
    exact ⟨fun x hx => ⟨(g2 x hx).1, (g2 x hx).2.1⟩, g3⟩

/-- Invariants of the final effort blocks: each is well-formed and within
the point range, and consecutive blocks are separated by an index gap of at
least 4 samples (strictly above `merge_gap_s = 3`). -/
theorem effortBlocksOf_spec (pts : List StreamPoint) :
    (∀ b ∈ effortBlocksOf pts, b.1 ≤ b.2 ∧ b.2 < pts.length) ∧
    List.Pairwise (fun p q : Nat × Nat => p.2 + 4 < q.1) (effortBlocksOf pts) := by
  by_cases hpts : pts = []
  · subst hpts
    constructor <;> simp [show effortBlocksOf [] = [] from rfl]
  · have hLlen : (labelStates (zSeriesOf pts) 1 (0.4 : Rat)).length = pts.length := by
      rw [show (labelStates (zSeriesOf pts) 1 (0.4 : Rat)).length =
          (zSeriesOf pts).length from labelGo_length_eq 1 (0.4 : Rat) (zSeriesOf pts)
            Label.NEUTRAL]
      exact zSeriesOf_length pts
    have hLne : labelStates (zSeriesOf pts) 1 (0.4 : Rat) ≠ [] := by
      intro hnil
      rw [hnil] at hLlen
      exact hpts (List.length_eq_zero.mp hLlen.symm)
    obtain ⟨_, hchain, hbounds, _, _, _⟩ :=
      rle_spec (labelStates (zSeriesOf pts) 1 (0.4 : Rat)) hLne
    have hpos : 0 < pts.length := List.length_pos.mpr hpts
    have hwfm : ∀ p ∈ (rle (labelStates (zSeriesOf pts) 1 (0.4 : Rat))).map
        (fun b => b.2), p.1 ≤ p.2 ∧ p.2 < pts.length := by
      intro p hp
      obtain ⟨b, hb, rfl⟩ := List.mem_map.mp hp
      obtain ⟨hb1, hb2⟩ := hbounds b hb
      rw [hLlen] at hb2
      exact ⟨hb1, by omega⟩
    have hchm : List.Chain' (fun p q : Nat × Nat => p.2 < q.1)
        ((rle (labelStates (zSeriesOf pts) 1 (0.4 : Rat))).map (fun b => b.2)) := by
      rw [List.chain'_map]
      exact List.Chain'.imp (fun a b h => by omega) hchain
    have hpm := chain_blocks_pairwise _ (fun b hb => (hwfm b hb).1) hchm
    have hsub := filterEfforts_sublist (rle (labelStates (zSeriesOf pts) 1 (0.4 : Rat)))
      (pts.map (fun p => p.time_s)) (pts.map (fun p => p.distance_m)) 18 40
    have hwff : ∀ b ∈ filterEfforts (rle (labelStates (zSeriesOf pts) 1 (0.4 : Rat)))
        (pts.map (fun p => p.time_s)) (pts.map (fun p => p.distance_m)) 18 40,
        b.1 ≤ b.2 ∧ b.2 < pts.length :=
      fun b hb => hwfm b (hsub.subset hb)
    have hpf := hpm.sublist hsub
    obtain ⟨m1, m2⟩ := mergeBlocks_spec 3 pts.length _ hwff hpf
    exact ⟨m1, m2.imp (fun h => by omega)⟩

theorem recupSpans_cons_cons (a b : Nat × Nat) (t : List (Nat × Nat))
    (h : a.2 + 2 < b.1) :
    recupSpans (a :: b :: t) = (a.2 + 1, b.1 - 1) :: recupSpans (b :: t) := by
  show (if (a.2 : Int) + 1 < (b.1 : Int) - 1 then [(a.2 + 1, b.1 - 1)] else []) ++
    recupSpans (b :: t) = _
  rw [if_pos (by omega)]
  rfl

/-- Under the post-merge gap property every consecutive pair of effort
blocks produces exactly one RECUP span. -/
theorem recupSpans_of_chain : ∀ (bs : List (Nat × Nat)),
    List.Chain' (fun p q : Nat × Nat => p.2 + 2 < q.1) bs →
    recupSpans bs = (List.range (bs.length - 1)).map
      (fun j => ((bs.getD j (0, 0)).2 + 1, (bs.getD (j + 1) (0, 0)).1 - 1)) := by
  intro bs
  induction bs with
  | nil => intro _; rfl
  | cons a t ih =>
    cases t with
    | nil => intro _; rfl
    | cons b t2 =>
      intro hch
      have hab : a.2 + 2 < b.1 := (List.chain'_cons.mp hch).1
      have htail := (List.chain'_cons.mp hch).2
      rw [recupSpans_cons_cons a b t2 hab, ih htail]
      rw [show (a :: b :: t2).length - 1 = t2.length + 1 by simp,
        List.range_succ_eq_map, List.map_cons, List.map_map]
      simp only [List.getD_cons_zero, List.getD_cons_succ]
      congr 1

/-- RECUP spans are well-formed and lie strictly inside the point range.  -/
theorem recupSpans_wf (n : Nat) : ∀ (bs : List (Nat × Nat)),
    (∀ b ∈ bs, b.1 ≤ b.2 ∧ b.2 < n) →
    List.Chain' (fun p q : Nat × Nat => p.2 + 2 < q.1) bs →
    ∀ p ∈ recupSpans bs, p.1 ≤ p.2 ∧ p.2 < n ∧ 0 < p.1 := by
  intro bs
  induction bs with
  | nil => intro _ _ p hp; exact absurd hp (by simp [recupSpans])
  | cons a t ih =>
    cases t with
    | nil => intro _ _ p hp; exact absurd hp (by simp [recupSpans])
    | cons b t2 =>
      intro hwf hch p hp
      have hab : a.2 + 2 < b.1 := (List.chain'_cons.mp hch).1
      have hbwf := hwf b (List.mem_cons_of_mem _ (List.mem_cons_self _ _))
      have hb1 : b.1 ≤ b.2 := hbwf.1
      have hb2 : b.2 < n := hbwf.2
      rw [recupSpans_cons_cons a b t2 hab] at hp
      rcases List.mem_cons.mp hp with hp | hp
      · subst hp
        refine ⟨?_, ?_, ?_⟩
        · show a.2 + 1 ≤ b.1 - 1
          omega
        · show b.1 - 1 < n
          omega
        · show 0 < a.2 + 1
          omega
      · exact ih (fun x hx => hwf x (List.mem_cons_of_mem _ hx))
          (List.chain'_cons.mp hch).2 p hp

theorem interleave_perm : ∀ (l r : List (Nat × Nat)), (interleave l r).Perm (l ++ r) := by
  intro l
  induction l with
  | nil => intro r; simp [interleave]
  | cons e et ih =>
    intro r
    cases r with
    | nil => simp [interleave]
    | cons r1 rt =>
      show (e :: r1 :: interleave et rt).Perm (e :: et ++ r1 :: rt)
      refine List.Perm.cons e ?_
      exact ((ih rt).cons r1).trans List.perm_middle.symm

/-- Interleaving the effort blocks with their RECUP gaps yields a strictly
index-ordered list with the same first and last blocks. -/
theorem interleave_chain : ∀ (bs : List (Nat × Nat)),
    List.Chain' (fun p q : Nat × Nat => p.2 + 2 < q.1) bs →
    List.Chain' (fun p q : Nat × Nat => p.2 < q.1)
      (interleave bs (recupSpans bs)) ∧
    (interleave bs (recupSpans bs)).head? = bs.head? ∧
    (interleave bs (recupSpans bs)).getLast? = bs.getLast? := by
  intro bs
  induction bs with
  | nil => intro _; exact ⟨List.chain'_nil, rfl, rfl⟩
  | cons a t ih =>
    cases t with
    | nil => intro _; exact ⟨List.chain'_singleton _, rfl, rfl⟩
    | cons b t2 =>
      intro hch
      have hab : a.2 + 2 < b.1 := (List.chain'_cons.mp hch).1
      have htail := (List.chain'_cons.mp hch).2
      obtain ⟨ic, ihd, ilst⟩ := ih htail
      have hred : interleave (a :: b :: t2) (recupSpans (a :: b :: t2)) =
          a :: (a.2 + 1, b.1 - 1) :: interleave (b :: t2) (recupSpans (b :: t2)) := by
        rw [recupSpans_cons_cons a b t2 hab]
        rfl
      rw [hred]
      have hIne : interleave (b :: t2) (recupSpans (b :: t2)) ≠ [] := by
        intro hnil
        rw [hnil] at ihd
        exact Option.noConfusion ihd
      refine ⟨?_, rfl, ?_⟩
      · refine List.chain'_cons.mpr ⟨by show a.2 < a.2 + 1; omega, ?_⟩
        refine List.chain'_cons'.mpr ⟨?_, ic⟩
        intro y hy
        rw [ihd] at hy
        simp only [List.head?_cons, Option.mem_some_iff] at hy
        subst hy
        show b.1 - 1 < b.1
        omega
      · obtain ⟨hd, tl, htl⟩ : ∃ hd tl,
            interleave (b :: t2) (recupSpans (b :: t2)) = hd :: tl := by
          cases hI : interleave (b :: t2) (recupSpans (b :: t2)) with
          | nil => exact absurd hI hIne
          | cons hd tl => exact ⟨hd, tl, rfl⟩
        rw [htl]
        rw [htl] at ilst
        rw [List.getLast?_cons_cons, List.getLast?_cons_cons]
        rw [ilst]
        exact List.getLast?_cons_cons.symm

theorem warmupSpan_some {first w : Nat × Nat} (h : warmupSpan first = some w) :
    w = (0, first.1 - 1) ∧ 0 < first.1 := by
  unfold warmupSpan at h
  split_ifs at h with hc
  · injection h with h2
    exact ⟨h2.symm, hc⟩

theorem cooldownSpan_some {last c : Nat × Nat} {li : Nat}
    (h : cooldownSpan last li = some c) : c = (last.2 + 1, li) ∧ last.2 < li := by
  unfold cooldownSpan at h
  split_ifs at h with hc
  · injection h with h2
    exact ⟨h2.symm, hc⟩

/-- All structural spans of one successful detection run are pairwise
disjoint in index range and well-formed. -/
theorem spans_pairwise (bs : List (Nat × Nat)) (n : Nat) (hne : bs ≠ [])
    (hwf : ∀ b ∈ bs, b.1 ≤ b.2 ∧ b.2 < n)
    (hchain4 : List.Chain' (fun p q : Nat × Nat => p.2 + 4 < q.1) bs) :
    List.Pairwise (fun p q : Nat × Nat => p.2 < q.1 ∨ q.2 < p.1)
      ((warmupSpan (bs.head hne)).toList ++ bs ++ recupSpans bs ++
        (cooldownSpan (bs.getLast hne) (n - 1)).toList) ∧
    (∀ p ∈ (warmupSpan (bs.head hne)).toList ++ bs ++ recupSpans bs ++
        (cooldownSpan (bs.getLast hne) (n - 1)).toList, p.1 ≤ p.2 ∧ p.2 < n) := by
  have hchain2 : List.Chain' (fun p q : Nat × Nat => p.2 + 2 < q.1) bs :=
    hchain4.imp (fun h => by omega)
  have hnpos : 0 < n := by
    obtain ⟨b0, hb0⟩ := List.exists_mem_of_ne_nil bs hne
    have := (hwf b0 hb0).2
    omega
  have hhead_mem : bs.head hne ∈ bs := List.head_mem hne
  have hlast_mem : bs.getLast hne ∈ bs := List.getLast_mem hne
  have hfirst := hwf _ hhead_mem
  have hlast := hwf _ hlast_mem
  obtain ⟨ic, ihd, ilst⟩ := interleave_chain bs hchain2
  -- shapes of the optional spans
  have hWshape : ∀ p ∈ (warmupSpan (bs.head hne)).toList,
      p = (0, (bs.head hne).1 - 1) ∧ 0 < (bs.head hne).1 := by
    intro p hp
    unfold warmupSpan at hp
    split_ifs at hp with h
    · simp only [Option.toList_some, List.mem_singleton] at hp
      exact ⟨hp, h⟩
    · exact absurd hp (by simp)
  have hCshape : ∀ p ∈ (cooldownSpan (bs.getLast hne) (n - 1)).toList,
      p = ((bs.getLast hne).2 + 1, n - 1) ∧ (bs.getLast hne).2 < n - 1 := by
    intro p hp
    unfold cooldownSpan at hp
    split_ifs at hp with h
    · simp only [Option.toList_some, List.mem_singleton] at hp
      exact ⟨hp, h⟩
    · exact absurd hp (by simp)
  -- well-formedness of every span
  have hRwf := recupSpans_wf n bs hwf hchain2
  have hwfall : ∀ p ∈ (warmupSpan (bs.head hne)).toList ++ bs ++ recupSpans bs ++
      (cooldownSpan (bs.getLast hne) (n - 1)).toList, p.1 ≤ p.2 ∧ p.2 < n := by
    intro p hp
    simp only [List.mem_append] at hp
    rcases hp with ((hp | hp) | hp) | hp
    · obtain ⟨hpe, hpos⟩ := hWshape p hp
      subst hpe
      have h1 := hfirst.1
      have h2 := hfirst.2
      exact ⟨by show (0 : Nat) ≤ (bs.head hne).1 - 1; omega,
        by show (bs.head hne).1 - 1 < n; omega⟩
    · exact hwf p hp
    · obtain ⟨k1, k2, _⟩ := hRwf p hp
      exact ⟨k1, k2⟩
    · obtain ⟨hpe, hlt⟩ := hCshape p hp
      subst hpe
      exact ⟨by show (bs.getLast hne).2 + 1 ≤ n - 1; omega,
        by show n - 1 < n; omega⟩
  refine ⟨?_, hwfall⟩
  -- the index-ordered arrangement
  have hIne : interleave bs (recupSpans bs) ≠ [] := by
    intro hnil
    rw [hnil] at ihd
    rw [List.head?_eq_head hne] at ihd
    exact Option.noConfusion ihd
  have hOrderedChain : List.Chain' (fun p q : Nat × Nat => p.2 < q.1)
      ((warmupSpan (bs.head hne)).toList ++
        (interleave bs (recupSpans bs) ++
          (cooldownSpan (bs.getLast hne) (n - 1)).toList)) := by
    rw [List.chain'_append]
    refine ⟨?_, ?_, ?_⟩
    · cases hW : warmupSpan (bs.head hne) with
      | none => exact List.chain'_nil
      | some w => exact List.chain'_singleton _
    · rw [List.chain'_append]
      refine ⟨ic, ?_, ?_⟩
      · cases hC : cooldownSpan (bs.getLast hne) (n - 1) with
        | none => exact List.chain'_nil
        | some c => exact List.chain'_singleton _
      · intro x hx y hy
        rw [ilst, List.getLast?_eq_getLast _ hne] at hx
        simp only [Option.mem_some_iff] at hx
        subst hx
        cases hC : cooldownSpan (bs.getLast hne) (n - 1) with
        | none => rw [hC] at hy; exact absurd hy (by simp)
        | some c =>
          rw [hC] at hy
          simp only [Option.toList_some, List.head?_cons, Option.mem_some_iff] at hy
          subst hy
          obtain ⟨hce, _⟩ := cooldownSpan_some hC
          rw [hce]
          show (bs.getLast hne).2 < (bs.getLast hne).2 + 1
          omega
    · intro x hx y hy
      cases hW : warmupSpan (bs.head hne) with
      | none => rw [hW] at hx; exact absurd hx (by simp)
      | some w =>
        rw [hW] at hx
        simp only [Option.toList_some, List.getLast?_singleton, Option.mem_some_iff] at hx
        subst hx
        obtain ⟨hwe, hpos⟩ := warmupSpan_some hW
        rw [List.head?_append_of_ne_nil _ hIne] at hy
        rw [ihd, List.head?_eq_head hne] at hy
        simp only [Option.mem_some_iff] at hy
        subst hy
        rw [hwe]
        show (bs.head hne).1 - 1 < (bs.head hne).1
        omega
  have hOrderedWf : ∀ p ∈ (warmupSpan (bs.head hne)).toList ++
      (interleave bs (recupSpans bs) ++
        (cooldownSpan (bs.getLast hne) (n - 1)).toList), p.1 ≤ p.2 := by
    intro p hp
    simp only [List.mem_append] at hp
    rcases hp with hp | hp | hp
    · obtain ⟨hpe, hpos⟩ := hWshape p hp
      subst hpe
      show (0 : Nat) ≤ (bs.head hne).1 - 1
      omega
    · have : p ∈ bs ++ recupSpans bs := (interleave_perm bs (recupSpans bs)).subset hp
      rcases List.mem_append.mp this with h | h
      · exact (hwf p h).1
      · exact (hRwf p h).1
    · obtain ⟨hpe, hlt⟩ := hCshape p hp
      subst hpe
      show (bs.getLast hne).2 + 1 ≤ n - 1
      omega
  have hOrderedPairwise := chain_blocks_pairwise _ hOrderedWf hOrderedChain
  have hperm : ((warmupSpan (bs.head hne)).toList ++
      (interleave bs (recupSpans bs) ++
        (cooldownSpan (bs.getLast hne) (n - 1)).toList)).Perm
      ((warmupSpan (bs.head hne)).toList ++ bs ++ recupSpans bs ++
        (cooldownSpan (bs.getLast hne) (n - 1)).toList) := by
    have h1 : (interleave bs (recupSpans bs) ++
        (cooldownSpan (bs.getLast hne) (n - 1)).toList).Perm
        ((bs ++ recupSpans bs) ++ (cooldownSpan (bs.getLast hne) (n - 1)).toList) :=
      (interleave_perm bs (recupSpans bs)).append_right _
    have h2 := (List.Perm.refl (warmupSpan (bs.head hne)).toList).append h1
    refine h2.trans ?_
    simp [List.append_assoc]
  have hsymm : ∀ {x y : Nat × Nat},
      (x.2 < y.1 ∨ y.2 < x.1) → (y.2 < x.1 ∨ x.2 < y.1) :=
    fun h => h.symm
  exact (hperm.pairwise_iff hsymm).mp
    (hOrderedPairwise.imp (fun h => Or.inl h))

theorem enumFrom_map_snd {α : Type _} : ∀ (i : Nat) (l : List α),
    (List.enumFrom i l).map Prod.snd = l := by
  intro i l
  induction l generalizing i with
  | nil => rfl
  | cons a t ih => simp [List.enumFrom, ih]

theorem enum_map_snd {α : Type _} (l : List α) : l.enum.map Prod.snd = l :=
  enumFrom_map_snd 0 l

theorem enum_snd_mem {α : Type _} (l : List α) (x : Nat × α) (h : x ∈ l.enum) :
    x.2 ∈ l := by
  have h2 := List.mem_map_of_mem Prod.snd h
  rwa [enum_map_snd] at h2

theorem spanOf_make_row (aid : Int) (lt : LapType) (li : Nat)
    (pts : List StreamPoint) (s e : Nat)
    (hidx : ∀ i, i < pts.length → (pts.getD i junkPoint).idx = i)
    (hs : s < pts.length) (he : e < pts.length) :
    spanOf (make_row aid lt li pts s e) = (s, e) := by
  unfold spanOf
  have h1 : (make_row aid lt li pts s e).start_idx = (pts.getD s junkPoint).idx := rfl
  have h2 : (make_row aid lt li pts s e).end_idx = (pts.getD e junkPoint).idx := rfl
  rw [h1, h2, hidx s hs, hidx e he]

theorem warmupRowsOf_spec (aid : Int) (pts : List StreamPoint) (first : Nat × Nat)
    (hidx : ∀ i, i < pts.length → (pts.getD i junkPoint).idx = i)
    (h1 : first.1 ≤ first.2) (h2 : first.2 < pts.length) :
    (warmupRowsOf aid pts (warmupSpan first)).map spanOf = (warmupSpan first).toList ∧
    (∀ r ∈ warmupRowsOf aid pts (warmupSpan first),
      r.lap_type = LapType.WARMUP ∧ r.start_idx = 0) ∧
    (warmupRowsOf aid pts (warmupSpan first)).length ≤ 1 := by
  cases hW : warmupSpan first with
  | none => exact ⟨rfl, by simp [warmupRowsOf], by simp [warmupRowsOf]⟩
  | some w =>
    obtain ⟨hwe, hpos⟩ := warmupSpan_some hW
    subst hwe
    have hred : warmupRowsOf aid pts (some ((0 : Nat), first.1 - 1)) =
        [make_row aid LapType.WARMUP 1 pts 0 (first.1 - 1)] := by
      show (if (0 : Nat) ≤ first.1 - 1 then
        [make_row aid LapType.WARMUP 1 pts 0 (first.1 - 1)] else []) = _
      rw [if_pos (Nat.zero_le _)]
    rw [hred]
    have hsb : (0 : Nat) < pts.length := by omega
    have heb : first.1 - 1 < pts.length := by omega
    refine ⟨?_, ?_, by simp⟩
    · rw [List.map_singleton, spanOf_make_row aid _ _ pts _ _ hidx hsb heb]
      rfl
    · intro r hr
      rw [List.mem_singleton] at hr
      subst hr
      refine ⟨rfl, ?_⟩
      show (pts.getD 0 junkPoint).idx = 0
      exact hidx 0 hsb

theorem cooldownRowsOf_spec (aid : Int) (pts : List StreamPoint) (last : Nat × Nat)
    (hidx : ∀ i, i < pts.length → (pts.getD i junkPoint).idx = i)
    (h2 : last.2 < pts.length) :
    (cooldownRowsOf aid pts (cooldownSpan last (pts.length - 1))).map spanOf =
      (cooldownSpan last (pts.length - 1)).toList ∧
    (∀ r ∈ cooldownRowsOf aid pts (cooldownSpan last (pts.length - 1)),
      r.lap_type = LapType.COOLDOWN ∧ r.end_idx = pts.length - 1) ∧
    (cooldownRowsOf aid pts (cooldownSpan last (pts.length - 1))).length ≤ 1 := by
  cases hC : cooldownSpan last (pts.length - 1) with
  | none => exact ⟨rfl, by simp [cooldownRowsOf], by simp [cooldownRowsOf]⟩
  | some c =>
    obtain ⟨hce, hlt⟩ := cooldownSpan_some hC
    subst hce
    have hred : cooldownRowsOf aid pts (some (last.2 + 1, pts.length - 1)) =
        [make_row aid LapType.COOLDOWN 1 pts (last.2 + 1) (pts.length - 1)] := by
      show (if last.2 + 1 ≤ pts.length - 1 then
        [make_row aid LapType.COOLDOWN 1 pts (last.2 + 1) (pts.length - 1)] else []) = _
      rw [if_pos (by omega)]
    rw [hred]
    have hsb : last.2 + 1 < pts.length := by omega
    have heb : pts.length - 1 < pts.length := by omega
    refine ⟨?_, ?_, by simp⟩
    · rw [List.map_singleton, spanOf_make_row aid _ _ pts _ _ hidx hsb heb]
      rfl
    · intro r hr
      rw [List.mem_singleton] at hr
      subst hr
      refine ⟨rfl, ?_⟩
      show (pts.getD (pts.length - 1) junkPoint).idx = pts.length - 1
      exact hidx _ heb

theorem effortRowsOf_spec (aid : Int) (pts : List StreamPoint)
    (bs : List (Nat × Nat))
    (hidx : ∀ i, i < pts.length → (pts.getD i junkPoint).idx = i)
    (hbs : ∀ b ∈ bs, b.1 < pts.length ∧ b.2 < pts.length) :
    (effortRowsOf aid pts bs).map spanOf = bs ∧
    (∀ r ∈ effortRowsOf aid pts bs, r.lap_type = LapType.EFFORT) ∧
    (effortRowsOf aid pts bs).length = bs.length := by
  refine ⟨?_, ?_, by simp [effortRowsOf, List.enum_length]⟩
  · unfold effortRowsOf
    rw [List.map_map]
    have hcongr : ∀ x ∈ bs.enum,
        (spanOf ∘ (fun ib : Nat × Nat × Nat =>
          make_row aid LapType.EFFORT (ib.1 + 1) pts ib.2.1 ib.2.2)) x = Prod.snd x := by
      intro x hx
      have hx2 : x.2 ∈ bs := enum_snd_mem bs x hx
      obtain ⟨hxa, hxb⟩ := hbs x.2 hx2
      show spanOf (make_row aid LapType.EFFORT (x.1 + 1) pts x.2.1 x.2.2) = x.2
      rw [spanOf_make_row aid _ _ pts _ _ hidx hxa hxb]
    rw [List.map_congr_left hcongr]
    exact enum_map_snd bs
  · intro r hr
    unfold effortRowsOf at hr
    obtain ⟨x, _, rfl⟩ := List.mem_map.mp hr
    rfl

theorem recupRowsOf_spec (aid : Int) (pts : List StreamPoint)
    (rec_blocks : List (Nat × Nat))
    (hidx : ∀ i, i < pts.length → (pts.getD i junkPoint).idx = i)
    (hbs : ∀ b ∈ rec_blocks, b.1 < pts.length ∧ b.2 < pts.length) :
    (recupRowsOf aid pts rec_blocks).map spanOf = rec_blocks ∧
    (∀ r ∈ recupRowsOf aid pts rec_blocks, r.lap_type = LapType.RECUP) ∧
    (recupRowsOf aid pts rec_blocks).length = rec_blocks.length := by
  refine ⟨?_, ?_, by simp [recupRowsOf, List.enum_length]⟩
  · unfold recupRowsOf
    rw [List.map_map]
    have hcongr : ∀ x ∈ rec_blocks.enum,
        (spanOf ∘ (fun ib : Nat × Nat × Nat =>
          make_row aid LapType.RECUP (ib.1 + 1) pts ib.2.1 ib.2.2)) x = Prod.snd x := by
      intro x hx
      have hx2 : x.2 ∈ rec_blocks := enum_snd_mem rec_blocks x hx
      obtain ⟨hxa, hxb⟩ := hbs x.2 hx2
      show spanOf (make_row aid LapType.RECUP (x.1 + 1) pts x.2.1 x.2.2) = x.2
      rw [spanOf_make_row aid _ _ pts _ _ hidx hxa hxb]
    rw [List.map_congr_left hcongr]
    exact enum_map_snd rec_blocks
  · intro r hr
    unfold recupRowsOf at hr
    obtain ⟨x, _, rfl⟩ := List.mem_map.mp hr
    rfl

theorem recupSpans_length_of_chain (bs : List (Nat × Nat))
    (hch : List.Chain' (fun p q : Nat × Nat => p.2 + 2 < q.1) bs) :
    (recupSpans bs).length = bs.length - 1 := by
  rw [recupSpans_of_chain bs hch]
  simp

/-- C8: every set of rows emitted by one detection run (on an idx-contiguous
point stream) satisfies: `start_idx ≤ end_idx` for each row; no two rows
overlap in index range; at most one WARMUP row, starting at idx 0; at most
one COOLDOWN row, ending at the last idx; and the RECUP rows are exactly the
index gaps between chronologically consecutive EFFORT rows (one per
consecutive pair), never overlapping them. -/
theorem C8_segment_invariants (activity_id : Int) (pts : List StreamPoint)
    (out : V4Output)
    (hidx : ∀ i, i < pts.length → (pts.getD i junkPoint).idx = i)
    (hok : build_intervals_structure_v4 activity_id pts = Except.ok out) :
    (∀ r ∈ out.dbInserted, r.start_idx ≤ r.end_idx) ∧
    List.Pairwise rowsDisjoint out.dbInserted ∧
    (out.dbInserted.filter (fun r => r.lap_type = LapType.WARMUP)).length ≤ 1 ∧
    (∀ r ∈ out.dbInserted, r.lap_type = LapType.WARMUP → r.start_idx = 0) ∧
    (out.dbInserted.filter (fun r => r.lap_type = LapType.COOLDOWN)).length ≤ 1 ∧
    (∀ r ∈ out.dbInserted, r.lap_type = LapType.COOLDOWN →
      r.end_idx = pts.length - 1) ∧
    (out.dbInserted.filter (fun r => r.lap_type = LapType.RECUP)).map spanOf =
      recupSpans
        ((out.dbInserted.filter (fun r => r.lap_type = LapType.EFFORT)).map spanOf) ∧
    (out.dbInserted.filter (fun r => r.lap_type = LapType.RECUP)).length =
      (out.dbInserted.filter (fun r => r.lap_type = LapType.EFFORT)).length - 1 := by
  by_cases hne : pts = []
  · rw [hne] at hok
    simp [build_intervals_structure_v4] at hok
  by_cases hvalid : (validSpeeds (smoothedVelocities pts)).length < 60
  · simp only [build_intervals_structure_v4, if_neg hne, if_pos hvalid] at hok
    injection hok with h
    subst h
    exact ⟨by simp, by simp, by simp, by simp, by simp, by simp,
      by simp [recupSpans], by simp⟩
  cases hblocks : effortBlocksOf pts with
  | nil =>
    simp only [build_intervals_structure_v4, if_neg hne, if_neg hvalid] at hok
    rw [hblocks] at hok
    injection hok with h
    subst h
    exact ⟨by simp, by simp, by simp, by simp, by simp, by simp,
      by simp [recupSpans], by simp⟩
  | cons fb restB =>
    simp only [build_intervals_structure_v4, if_neg hne, if_neg hvalid] at hok
    rw [hblocks] at hok
    injection hok with h
    subst h
    obtain ⟨hwfall0, hp4⟩ := effortBlocksOf_spec pts
    rw [hblocks] at hwfall0 hp4
    have hbs_ne : (fb :: restB) ≠ [] := List.cons_ne_nil _ _
    have hchain4 : List.Chain' (fun p q : Nat × Nat => p.2 + 4 < q.1) (fb :: restB) :=
      hp4.chain'
    have hchain2 : List.Chain' (fun p q : Nat × Nat => p.2 + 2 < q.1) (fb :: restB) :=
      hchain4.imp (fun h => by omega)
    obtain ⟨hPW, hWFspans⟩ :=
      spans_pairwise (fb :: restB) pts.length hbs_ne hwfall0 hchain4
    have hfb := hwfall0 fb (List.mem_cons_self _ _)
    have hlast := hwfall0 _ (List.getLast_mem hbs_ne)
    obtain ⟨hWm, hWt, hWl⟩ := warmupRowsOf_spec activity_id pts fb hidx hfb.1 hfb.2
    obtain ⟨hEm, hEt, hEl⟩ := effortRowsOf_spec activity_id pts (fb :: restB) hidx
      (fun b hb => ⟨by have := hwfall0 b hb; omega, (hwfall0 b hb).2⟩)
    have hRwfm := recupSpans_wf pts.length (fb :: restB) hwfall0 hchain2
    obtain ⟨hRm, hRt, hRl⟩ := recupRowsOf_spec activity_id pts
      (recupSpans (fb :: restB)) hidx
      (fun b hb => ⟨by have := hRwfm b hb; omega, (hRwfm b hb).2.1⟩)
    obtain ⟨hCm, hCt, hCl⟩ := cooldownRowsOf_spec activity_id pts
      ((fb :: restB).getLast (List.cons_ne_nil _ _)) hidx hlast.2
    have hmap : ((warmupRowsOf activity_id pts (warmupSpan fb) ++
        effortRowsOf activity_id pts (fb :: restB) ++
        recupRowsOf activity_id pts (recupSpans (fb :: restB)) ++
        cooldownRowsOf activity_id pts
          (cooldownSpan ((fb :: restB).getLast (List.cons_ne_nil _ _))
            (pts.length - 1))).map spanOf) =
        ((warmupSpan fb).toList ++ (fb :: restB) ++ recupSpans (fb :: restB) ++
          (cooldownSpan ((fb :: restB).getLast (List.cons_ne_nil _ _))
            (pts.length - 1)).toList) := by
      simp only [List.map_append]
      rw [hWm, hEm, hRm, hCm]
    have hfW : (warmupRowsOf activity_id pts (warmupSpan fb) ++
        effortRowsOf activity_id pts (fb :: restB) ++
        recupRowsOf activity_id pts (recupSpans (fb :: restB)) ++
        cooldownRowsOf activity_id pts
          (cooldownSpan ((fb :: restB).getLast (List.cons_ne_nil _ _))
            (pts.length - 1))).filter (fun r => r.lap_type = LapType.WARMUP) =
        warmupRowsOf activity_id pts (warmupSpan fb) := by
      simp only [List.filter_append]
      rw [List.filter_eq_self.mpr (fun a ha => by simp [(hWt a ha).1]),
        List.filter_eq_nil_iff.mpr (fun a ha => by simp [hEt a ha]),
        List.filter_eq_nil_iff.mpr (fun a ha => by simp [hRt a ha]),
        List.filter_eq_nil_iff.mpr (fun a ha => by simp [(hCt a ha).1])]
      simp
    have hfE : (warmupRowsOf activity_id pts (warmupSpan fb) ++
        effortRowsOf activity_id pts (fb :: restB) ++
        recupRowsOf activity_id pts (recupSpans (fb :: restB)) ++
        cooldownRowsOf activity_id pts
          (cooldownSpan ((fb :: restB).getLast (List.cons_ne_nil _ _))
            (pts.length - 1))).filter (fun r => r.lap_type = LapType.EFFORT) =
        effortRowsOf activity_id pts (fb :: restB) := by
      simp only [List.filter_append]
      rw [List.filter_eq_nil_iff.mpr (fun a ha => by simp [(hWt a ha).1]),
        List.filter_eq_self.mpr (fun a ha => by simp [hEt a ha]),
        List.filter_eq_nil_iff.mpr (fun a ha => by simp [hRt a ha]),
        List.filter_eq_nil_iff.mpr (fun a ha => by simp [(hCt a ha).1])]
      simp
    have hfR : (warmupRowsOf activity_id pts (warmupSpan fb) ++
        effortRowsOf activity_id pts (fb :: restB) ++
        recupRowsOf activity_id pts (recupSpans (fb :: restB)) ++
        cooldownRowsOf activity_id pts
          (cooldownSpan ((fb :: restB).getLast (List.cons_ne_nil _ _))
            (pts.length - 1))).filter (fun r => r.lap_type = LapType.RECUP) =
        recupRowsOf activity_id pts (recupSpans (fb :: restB)) := by
      simp only [List.filter_append]
      rw [List.filter_eq_nil_iff.mpr (fun a ha => by simp [(hWt a ha).1]),
        List.filter_eq_nil_iff.mpr (fun a ha => by simp [hEt a ha]),
        List.filter_eq_self.mpr (fun a ha => by simp [hRt a ha]),
        List.filter_eq_nil_iff.mpr (fun a ha => by simp [(hCt a ha).1])]
      simp
    have hfC : (warmupRowsOf activity_id pts (warmupSpan fb) ++
        effortRowsOf activity_id pts (fb :: restB) ++
        recupRowsOf activity_id pts (recupSpans (fb :: restB)) ++
        cooldownRowsOf activity_id pts
          (cooldownSpan ((fb :: restB).getLast (List.cons_ne_nil _ _))
            (pts.length - 1))).filter (fun r => r.lap_type = LapType.COOLDOWN) =
        cooldownRowsOf activity_id pts
          (cooldownSpan ((fb :: restB).getLast (List.cons_ne_nil _ _))
            (pts.length - 1)) := by
      simp only [List.filter_append]
      rw [List.filter_eq_nil_iff.mpr (fun a ha => by simp [(hWt a ha).1]),
        List.filter_eq_nil_iff.mpr (fun a ha => by simp [hEt a ha]),
        List.filter_eq_nil_iff.mpr (fun a ha => by simp [hRt a ha]),
        List.filter_eq_self.mpr (fun a ha => by simp [(hCt a ha).1])]
      simp
    refine ⟨?_, ?_, ?_, ?_, ?_, ?_, ?_, ?_⟩
    · intro r hr
      have hsp := List.mem_map_of_mem spanOf hr
      rw [hmap] at hsp
      exact (hWFspans (spanOf r) hsp).1
    · have hPW2 : List.Pairwise (fun p q : Nat × Nat => p.2 < q.1 ∨ q.2 < p.1)
          ((warmupRowsOf activity_id pts (warmupSpan fb) ++
            effortRowsOf activity_id pts (fb :: restB) ++
            recupRowsOf activity_id pts (recupSpans (fb :: restB)) ++
            cooldownRowsOf activity_id pts
              (cooldownSpan ((fb :: restB).getLast (List.cons_ne_nil _ _))
                (pts.length - 1))).map spanOf) := by
        rw [hmap]
        exact hPW
      exact (List.pairwise_map.mp hPW2).imp (fun h => h)
    · rw [hfW]
      exact hWl
    · intro r hr htype
      simp only [List.append_assoc, List.mem_append] at hr
      rcases hr with hr | hr | hr | hr
      · exact (hWt r hr).2
      · exact absurd ((hEt r hr).symm.trans htype) (by decide)
      · exact absurd ((hRt r hr).symm.trans htype) (by decide)
      · exact absurd (((hCt r hr).1).symm.trans htype) (by decide)
    · rw [hfC]
      exact hCl
    · intro r hr htype
      simp only [List.append_assoc, List.mem_append] at hr
      rcases hr with hr | hr | hr | hr
      · exact absurd (((hWt r hr).1).symm.trans htype) (by decide)
      · exact absurd ((hEt r hr).symm.trans htype) (by decide)
      · exact absurd ((hRt r hr).symm.trans htype) (by decide)
      · exact (hCt r hr).2
    · rw [hfR, hfE, hRm, hEm]
    · rw [hfR, hfE, hRl, hEl, recupSpans_length_of_chain _ hchain2]

/-- Witness for C8 at a one-point stream (the soft insufficient-data run). -/
theorem C8_segment_invariants_witness :
    (∀ i, i < ([lonePt] : List StreamPoint).length →
      (([lonePt] : List StreamPoint).getD i junkPoint).idx = i) ∧
    build_intervals_structure_v4 3 [lonePt] =
      Except.ok ⟨false, [], V4Result.insufficient 0 "Not enough valid speed points"⟩ ∧
    List.Pairwise rowsDisjoint
      (⟨false, [], V4Result.insufficient 0 "Not enough valid speed points"⟩ :
        V4Output).dbInserted :=
  ⟨by decide, by decide,
    (C8_segment_invariants 3 [lonePt]
      ⟨false, [], V4Result.insufficient 0 "Not enough valid speed points"⟩
      (by decide) (by decide)).2.1⟩

end RunningCoach
